import Mathlib

/-!
# jpegcc: a shallow embedding of `github.com/regorov/jpegcc`

The Go package is modelled by pure Lean functions.  `uint32`/`int` values are
natural numbers (with an explicit `% 2 ^ 32` where a counter can wrap), Go
strings are `String` (Go's `len` is the UTF-8 byte size), slices are lists,
and everything the package takes from outside (the JPEG decoder, the map
iteration order, the HTTP client, the file system) is an explicit argument.
-/

set_option linter.dupNamespace false
set_option linter.unusedVariables false

namespace jpegcc

/-- Go `string`. -/
abbrev GoString := String

/-- Go `[]byte`. -/
abbrev Bytes := List Nat

/-! ## result.go -/

/-- Go `type RGB uint32`; memory representation is `0x00RRGGBB`. -/
abbrev RGB := Nat

/-- Go `strconv.AppendUint(buf[:0], i, 16)`: the lowercase hexadecimal digits of
`i`, most significant first, without leading zeros. -/
def AppendUint (i : Nat) : List Char := Nat.toDigits 16 i

/-- Go `func (rgb RGB) String() string`. -/
def RGB.String (rgb : RGB) : GoString :=
  let rgb := (rgb &&& 0x00FFFFFF) ||| 0x0F000000
  let buf := AppendUint rgb
  let buf := buf.set 0 '#'
  String.mk buf

/-- Go `func ToRGB(r, g, b uint32) RGB`. -/
def ToRGB (r g b : Nat) : RGB :=
  ((r &&& 0x00FF) <<< 16) ||| ((g &&& 0x00FF) <<< 8) ||| (b &&& 0x00FF)

/-- Go `type Result struct { URL string; Colors [3]RGB }`. -/
structure Result where
  URL : GoString
  Colors : RGB × RGB × RGB
  deriving DecidableEq, Repr

/-- Go `func (r *Result) Header() string`. -/
def Result.Header (r : Result) : GoString :=
  "\"url\",\"color1\",\"color2\",\"color3\"\n"

/-- Go `func (r *Result) Result() string`: the `fmt.Sprintf` of the format
`"%s","%s","%s","%s"\n` with the URL and the three colour strings. -/
def Result.Result (r : Result) : GoString :=
  "\"" ++ r.URL ++ "\",\"" ++ RGB.String r.Colors.1 ++ "\",\"" ++ RGB.String r.Colors.2.1
    ++ "\",\"" ++ RGB.String r.Colors.2.2 ++ "\"\n"

/-- The sixteen lowercase hexadecimal digits. -/
def lowerHex : List Char := "0123456789abcdef".data

/-- Six hexadecimal digits of `v`, most significant first, zero padded. -/
def hex6 (v : Nat) : List Char :=
  [lowerHex.getD (v / 16 ^ 5 % 16) '?', lowerHex.getD (v / 16 ^ 4 % 16) '?',
   lowerHex.getD (v / 16 ^ 3 % 16) '?', lowerHex.getD (v / 16 ^ 2 % 16) '?',
   lowerHex.getD (v / 16 % 16) '?', lowerHex.getD (v % 16) '?']

/-- The rendering `#rrggbb` of the low 24 bits of `v`, as the specification
words it: a `#` followed by exactly six lowercase hexadecimal digits. -/
def rrggbb (v : Nat) : GoString := String.mk ('#' :: hex6 (v % 2 ^ 24))

/-! ## jpegcc.go -/

/-- Go `type Resulter interface { Result() string; Header() string }`: a value of
the interface is given by what its two methods return. -/
structure Resulter where
  Result : GoString
  Header : GoString
  deriving DecidableEq, Repr

/-- The `*Result` behind a `Resulter` interface value. -/
def Result.toResulter (r : jpegcc.Result) : Resulter :=
  { Result := Result.Result r, Header := Result.Header r }

/-- Go `Media`, the package's `Imager`: the URL and the HTTP response (status
code and body) it was downloaded with. -/
structure Media where
  url : GoString
  StatusCode : Nat
  Body : Bytes
  deriving DecidableEq, Repr

/-- Go `func (i *Media) Bytes() []byte`. -/
def Media.Bytes (i : Media) : Bytes := i.Body

/-- Go `func (i *Media) URL() string`. -/
def Media.URL (i : Media) : GoString := i.url

/-! ## counter_default.go, counter_pix.go -/

/-- Go `map[RGB]uint32`: the entries of the map, with pairwise different keys. -/
abbrev Histogram := List (RGB × Nat)

/-- Go `color[k]`: the count stored under `k`, zero for a missing key. -/
def Histogram.get : Histogram → RGB → Nat
  | [], _ => 0
  | (k', n) :: rest, k => if k' = k then n else Histogram.get rest k

/-- Go `color[k]++` on a `map[RGB]uint32`. -/
def Histogram.incr : Histogram → RGB → Histogram
  | [], k => [(k, 1)]
  | (k', n) :: rest, k =>
    if k' = k then (k', (n + 1) % 2 ^ 32) :: rest else (k', n) :: Histogram.incr rest k

/-- Go `type maxt struct { color RGB; count uint32 }`. -/
structure maxt where
  color : RGB
  count : Nat
  deriving DecidableEq, Repr

/-- One pass of the body of `for c, cnt := range color` over the array
`max [3]maxt`. -/
def selectStep (max : maxt × maxt × maxt) (e : RGB × Nat) : maxt × maxt × maxt :=
  let c := e.1
  let cnt := e.2
  if cnt < max.2.2.count then max
  else if cnt > max.1.count then (⟨c, cnt⟩, max.1, max.2.1)
  else if cnt > max.2.1.count then (max.1, ⟨c, cnt⟩, max.2.1)
  else if cnt > max.2.2.count then (max.1, max.2.1, ⟨c, cnt⟩)
  else max

/-- The three slots are in non-increasing count order. -/
def sortedSlots (max : maxt × maxt × maxt) : Prop :=
  max.2.2.count ≤ max.2.1.count ∧ max.2.1.count ≤ max.1.count

/-- The whole loop `for c, cnt := range color`, the entries visited in the
order `order`. -/
def selectMax (seed : maxt × maxt × maxt) (order : List (RGB × Nat)) : maxt × maxt × maxt :=
  order.foldl selectStep seed

/-- The variables the pixel loop leaves behind: the map and the channels of
the pixel visited last (`var r, g, b uint32` start at zero). -/
structure Scan where
  color : Histogram
  r : Nat
  g : Nat
  b : Nat
  deriving DecidableEq, Repr

/-- The body of both pixel loops: `r, g, b = ...; color[ToRGB(r, g, b)]++`. -/
def Scan.visit (st : Scan) (p : Nat × Nat × Nat) : Scan :=
  { color := st.color.incr (ToRGB p.1 p.2.1 p.2.2), r := p.1, g := p.2.1, b := p.2.2 }

/-- The seed `[3]maxt{{ToRGB(r, g, b), 1}, {ToRGB(r, g, b), 1}, {ToRGB(r, g, b), 1}}`. -/
def Scan.seed (st : Scan) : maxt × maxt × maxt :=
  (⟨ToRGB st.r st.g st.b, 1⟩, ⟨ToRGB st.r st.g st.b, 1⟩, ⟨ToRGB st.r st.g st.b, 1⟩)

/-- What `Count` reads of an `*image.YCbCr`: `Bounds().Max` and, per pixel,
the first three results of `img.YCbCrAt(x, y).RGBA()`. -/
structure YCbCr where
  MaxX : Nat
  MaxY : Nat
  RGBAAt : Nat → Nat → Nat × Nat × Nat

/-- What the package takes from the Go runtime and the standard library:
`jpeg.Decode`, the type assertion `oimg.(*image.YCbCr)`, the `Pix` of the
`image.RGBA` that `image.NewRGBA` and `draw.Draw` make of the decoded image,
and the order in which `range` visits the entries of a map. -/
structure Runtime (Image : Type) where
  Decode : Bytes → Except GoString Image
  asYCbCr : Image → Option YCbCr
  drawPix : Image → Bytes
  rangeOrder : Histogram → List (RGB × Nat)

/-- The pixel loop of `CounterDefault.Count`:
`for y := 0; y < height; y++ { for x := 0; x < width; x++ { ... } }`. -/
def CounterDefault.scan (img : YCbCr) : Scan :=
  (List.range img.MaxY).foldl
    (fun st y => (List.range img.MaxX).foldl (fun st x => st.visit (img.RGBAAt x y)) st)
    { color := [], r := 0, g := 0, b := 0 }

/-- Go `func (cc *CounterDefault) Count(pic Imager) (Resulter, error)`. -/
def CounterDefault.Count {Image : Type} (rt : Runtime Image) (pic : Media) :
    Except GoString Result :=
  match rt.Decode pic.Bytes with
  | .error err => .error ("image could not be decoded [" ++ err ++ "]")
  | .ok oimg =>
    match rt.asYCbCr oimg with
    | none => .error "image could not be converted to YCbCr"
    | some img =>
      let st := CounterDefault.scan img
      let max := selectMax st.seed (rt.rangeOrder st.color)
      .ok { URL := pic.URL, Colors := (max.1.color, max.2.1.color, max.2.2.color) }

/-- The pixel loop of `CounterPix.Count`:
`for i := 0; i < len(img.Pix)/4; i += 4 { r, g, b = Pix[i], Pix[i+1], Pix[i+2]; ... }`.
The values of `i` are the multiples of four below `len(img.Pix)/4`. -/
def CounterPix.scan (Pix : Bytes) : Scan :=
  ((List.range (Pix.length / 4)).filter (fun i => i % 4 = 0)).foldl
    (fun st i => st.visit (Pix.getD i 0, Pix.getD (i + 1) 0, Pix.getD (i + 2) 0))
    { color := [], r := 0, g := 0, b := 0 }

/-- Go `func (cc *CounterPix) Count(pic Imager) (Resulter, error)`. -/
def CounterPix.Count {Image : Type} (rt : Runtime Image) (pic : Media) :
    Except GoString Result :=
  match rt.Decode pic.Bytes with
  | .error err => .error ("image could not be decoded [" ++ err ++ "]")
  | .ok oimg =>
    let Pix := rt.drawPix oimg
    let st := CounterPix.scan Pix
    let max := selectMax st.seed (rt.rangeOrder st.color)
    .ok { URL := pic.URL, Colors := (max.1.color, max.2.1.color, max.2.2.color) }

/-- The packed colour a pixel with channels `p` is counted under. -/
def rgbOf (p : Nat × Nat × Nat) : RGB := ToRGB p.1 p.2.1 p.2.2

/-- The pixels of a `YCbCr`, row by row, each as the packed colour of its
channels. -/
def YCbCr.colors (img : YCbCr) : List RGB :=
  (List.range img.MaxY).flatMap fun y =>
    (List.range img.MaxX).map fun x => rgbOf (img.RGBAAt x y)

/-- The pixels of an RGBA buffer (`R, G, B, A` per pixel, so pixel `k` starts
at byte `4 * k`), each as the packed colour of its first three bytes. -/
def pixColors (Pix : Bytes) : List RGB :=
  (List.range (Pix.length / 4)).map fun k =>
    rgbOf (Pix.getD (4 * k) 0, Pix.getD (4 * k + 1) 0, Pix.getD (4 * k + 2) 0)

/-- The colours the loop of `CounterPix` counts, in the order it counts them. -/
def CounterPix.visited (Pix : Bytes) : List RGB :=
  ((List.range (Pix.length / 4)).filter (fun i => i % 4 = 0)).map fun i =>
    rgbOf (Pix.getD i 0, Pix.getD (i + 1) 0, Pix.getD (i + 2) 0)


/-! ## Concrete inputs -/

/-- A runtime whose decoder accepts every body with the one image given by
`img` and `Pix`, and whose `range` visits a map in the order of insertion. -/
def fixedRuntime (img : YCbCr) (Pix : Bytes) : Runtime Unit :=
  { Decode := fun _ => .ok (), asYCbCr := fun _ => some img, drawPix := fun _ => Pix,
    rangeOrder := fun m => m }

/-- A 3x1 image: one red, one green and one blue pixel. -/
def threePixels : YCbCr :=
  { MaxX := 3, MaxY := 1,
    RGBAAt := fun x _ =>
      if x = 0 then (0xFFFF, 0, 0) else if x = 1 then (0, 0xFFFF, 0) else (0, 0, 0xFFFF) }

/-- The RGBA buffer of a 3x3 image whose first row is red, green, blue and
whose other six pixels are white. -/
def ninePixels : Bytes :=
  [255, 0, 0, 255,  0, 255, 0, 255,  0, 0, 255, 255,
   255, 255, 255, 255,  255, 255, 255, 255,  255, 255, 255, 255,
   255, 255, 255, 255,  255, 255, 255, 255,  255, 255, 255, 255]

/-- The RGBA buffer of a 2x1 image: a red pixel and a blue pixel. -/
def twoPixels : Bytes := [255, 0, 0, 255,  0, 0, 255, 255]

/-- A downloaded image; its body stands for the bytes of a JPEG file. -/
def somePic : Media := { url := "http://x/1.jpeg", StatusCode := 200, Body := [0xFF, 0xD8] }


/-! ## downloader.go -/

/-- The errors `Download` returns: `fmt.Errorf("http code %d", code)`,
`ErrMediaIsEmpty`, the error of `fasthttp.Do`, and `ctx.Err()`. -/
inductive DownloadError where
  | httpCode (code : Nat)
  | ErrMediaIsEmpty
  | transport (msg : GoString)
  | ctxErr
  deriving DecidableEq, Repr

/-- The outcome of one `fasthttp.Do(img.req, img.resp)`: no error and a
response, `fasthttp.ErrNoFreeConns`, or another error. -/
inductive DoResult where
  | ok (StatusCode : Nat) (Body : Bytes)
  | ErrNoFreeConns
  | err (msg : GoString)
  deriving DecidableEq, Repr

/-- What one `select` of the retry loop receives: the context is done, or the
ticker fires and `fasthttp.Do` is called again with the given outcome. -/
inductive Tick where
  | ctxDone
  | tick (r : DoResult)
  deriving DecidableEq, Repr

/-- The retry loop of `Download`, `for { select { ... } }`, over the events it
receives; `none` while the loop has not returned. -/
def MediaDownloader.retry (url : GoString) : List Tick → Option (Except DownloadError Media)
  | [] => none
  | .ctxDone :: _ => some (.error .ctxErr)
  | .tick (.ok code body) :: _ => some (.ok { url := url, StatusCode := code, Body := body })
  | .tick .ErrNoFreeConns :: rest => MediaDownloader.retry url rest
  | .tick (.err msg) :: _ => some (.error (.transport msg))

/-- Go `func (id *MediaDownloader) Download(ctx context.Context, url string) (Imager, error)`;
`first` is the outcome of the first `fasthttp.Do`, `ticks` what the retry loop
receives afterwards. -/
def MediaDownloader.Download (url : GoString) (first : DoResult) (ticks : List Tick) :
    Option (Except DownloadError Media) :=
  match first with
  | .ok code body =>
    if code ≠ 200 then some (.error (.httpCode code))
    else if body.length = 0 then some (.error .ErrMediaIsEmpty)
    else some (.ok { url := url, StatusCode := code, Body := body })
  | .err msg => some (.error (.transport msg))
  | .ErrNoFreeConns => MediaDownloader.retry url ticks

/-! ## output.go -/

/-- The files of the file system: the content stored under each name. -/
abbrev FS := GoString → Option GoString

/-- An `*os.File` opened by `Open`: the file it names and whether the handle
was closed.  `Open` leaves the offset at the end of the file, so every write
through the handle appends. -/
structure File where
  name : GoString
  closed : Bool
  deriving DecidableEq, Repr

/-- Go `type BufferedCSV struct`; `cap` is `cap(out.buf)`, `file = none` is the
`nil` file. -/
structure BufferedCSV where
  buf : List GoString
  cap : Nat
  file : Option File
  isHeadWriteRequired : Bool
  deriving DecidableEq, Repr

/-- Go `const DefaultBufferLen = 10`. -/
def DefaultBufferLen : Int := 10

/-- Go `func NewBufferedCSV(size int) *BufferedCSV`. -/
def NewBufferedCSV (size : Int) : BufferedCSV :=
  let size := if size < 2 then DefaultBufferLen else size
  { buf := [], cap := size.toNat, file := none, isHeadWriteRequired := false }

/-- The file system after `s` was appended to the file `name`. -/
def FS.append (fs : FS) (name : GoString) (s : GoString) : FS :=
  fun n => if n = name then some ((fs n).getD "" ++ s) else fs n

/-- Go `os.OpenFile(fname, os.O_CREATE|os.O_WRONLY, 0666)` without error: a
missing file is created empty, an existing one keeps its content. -/
def FS.create (fs : FS) (name : GoString) : FS :=
  fun n => if n = name then some ((fs n).getD "") else fs n

/-- Go `func (out *BufferedCSV) Open(fname string) error`; `openErr` and `seekErr`
are the errors `os.OpenFile` and `Seek` report, if any. -/
def BufferedCSV.Open (out : BufferedCSV) (fs : FS) (fname : GoString)
    (openErr seekErr : Option GoString) : BufferedCSV × FS × Option GoString :=
  match openErr with
  | some err => ({ out with file := none }, fs, some err)
  | none =>
    let fs := fs.create fname
    let out := { out with file := some { name := fname, closed := false } }
    let flen := ((fs fname).getD "").utf8ByteSize
    match seekErr with
    | some err => ({ out with file := some { name := fname, closed := true } }, fs, some err)
    | none => ({ out with isHeadWriteRequired := (flen == 0) }, fs, none)

/-- Go `out.file.WriteString(s)`; `werr` is the error the write reports, if any.
A failed write is taken to leave the file as it was. -/
def File.WriteString (f : File) (fs : FS) (s : GoString) (werr : Option GoString) :
    FS × Option GoString :=
  if f.closed then (fs, some "file already closed")
  else match werr with
    | some err => (fs, some err)
    | none => (fs.append f.name s, none)

/-- Go `out.file.Close()`; `cerr` is the error it reports, if any. -/
def File.Close (f : File) (cerr : Option GoString) : Option GoString :=
  if f.closed then some "file already closed" else cerr

/-- Go `append(out.buf, s)`: a full slice is reallocated with the capacity
`grow` the runtime chooses. -/
def BufferedCSV.append (grow : Nat → Nat) (out : BufferedCSV) (s : GoString) : BufferedCSV :=
  { out with buf := out.buf ++ [s],
             cap := if out.buf.length < out.cap then out.cap else grow out.cap }

/-- Go `func (out *BufferedCSV) csvLines(r []string) string`. -/
def BufferedCSV.csvLines (out : BufferedCSV) (r : List GoString) : GoString :=
  if r.length = 0 then "" else String.join out.buf

/-- Go `func (out *BufferedCSV) Save(res Resulter) error`. -/
def BufferedCSV.Save (grow : Nat → Nat) (out : BufferedCSV) (fs : FS) (res : Resulter)
    (werr : Option GoString) : BufferedCSV × FS × Option GoString :=
  match out.file with
  | none => (out, fs, none)
  | some file =>
    let out :=
      if out.isHeadWriteRequired then
        { out.append grow res.Header with isHeadWriteRequired := false }
      else out
    let out := out.append grow res.Result
    if out.buf.length < out.cap then (out, fs, none)
    else
      match file.WriteString fs (out.csvLines out.buf) werr with
      | (fs, some err) => (out, fs, some err)
      | (fs, none) => ({ out with buf := [] }, fs, none)

/-- Go `func (out *BufferedCSV) Close() error`. -/
def BufferedCSV.Close (out : BufferedCSV) (fs : FS) (werr cerr : Option GoString) :
    BufferedCSV × FS × Option GoString :=
  let s := out.csvLines out.buf
  match out.file with
  | none => (out, fs, some "invalid argument")
  | some file =>
    match file.WriteString fs s werr with
    | (fs, none) => ({ out with file := none }, fs, file.Close cerr)
    | (fs, some err) => ({ out with file := none }, fs, some err)

/-- The calls `Save(r1)`, ..., `Save(rn)` in a row, every write succeeding;
the errors they return are collected. -/
def BufferedCSV.SaveAll (grow : Nat → Nat) (out : BufferedCSV) (fs : FS) :
    List Resulter → BufferedCSV × FS × List (Option GoString)
  | [] => (out, fs, [])
  | r :: rs =>
    let s := out.Save grow fs r none
    let t := BufferedCSV.SaveAll grow s.1 s.2.1 rs
    (t.1, t.2.1, s.2.2 :: t.2.2)

/-- One life of a sink without I/O errors: `NewBufferedCSV(size)`,
`Open(fname)`, `Save` of every record of `rs`, `Close()`.  The result is the
file system at the end and the errors the calls returned. -/
def sinkSession (grow : Nat → Nat) (size : Int) (fs : FS) (fname : GoString)
    (rs : List Resulter) : FS × List (Option GoString) :=
  let o := (NewBufferedCSV size).Open fs fname none none
  let s := BufferedCSV.SaveAll grow o.1 o.2.1 rs
  let c := s.1.Close s.2.1 none none
  (c.2.1, o.2.2 :: s.2.2 ++ [c.2.2])

/-- The text a destination received: its content `after` without the content
`before` it started with. -/
def received (before after : GoString) : GoString :=
  String.mk (after.data.drop before.data.length)

/-- The lines of a text: the pieces between newlines, `acc` being the piece
read so far; text after the last newline is a line when it is not empty. -/
def splitLines : List Char → List Char → List (List Char)
  | acc, [] => if acc = [] then [] else [acc]
  | acc, c :: cs => if c = '\n' then acc :: splitLines [] cs else splitLines (acc ++ [c]) cs

/-- The number of lines of `text` that are the header line of the CSV. -/
def headerLines (text : GoString) : Nat :=
  (splitLines [] text.data).count "\"url\",\"color1\",\"color2\",\"color3\"".data

/-- The text of `r.Result()` without its final newline. -/
def Result.line (r : jpegcc.Result) : List Char :=
  '"' :: r.URL.data ++ "\",\"".data ++ (RGB.String r.Colors.1).data ++ "\",\"".data
    ++ (RGB.String r.Colors.2.1).data ++ "\",\"".data ++ (RGB.String r.Colors.2.2).data ++ ['"']

/-- A file system without files. -/
def noFiles : FS := fun _ => none

/-- A file system whose only file is `name`, holding `content`. -/
def oneFile (name content : GoString) : FS := fun n => if n = name then some content else none

/-! ## plan_text_file_input.go -/

/-- What an iteration of `runner` sees of the context: whether the outer
`select` finds `ctx.Done()` ready, and whether the inner `select` takes
`case <-ctx.Done()` instead of sending the line. -/
structure CtxView where
  doneAtLoop : Bool
  doneAtPush : Bool
  deriving DecidableEq, Repr

/-- What `runner` has done when it returns: the values sent on `inp.line`, the
number of values sent on `inp.eof`, and `inp.linesPassed`. -/
structure Feed where
  sent : List GoString
  eof : Nat
  linesPassed : Nat
  deriving DecidableEq, Repr

/-- Go `func (inp *PlainTextFileInput) runner(ctx context.Context, file *os.File)`
over the tokens `scanner.Text()` yields until `scanner.Scan()` is false;
`ctx i` is the view of the context in iteration `i`, `TrimSpace` is
`strings.TrimSpace`, and the reader of `inp.line` takes every value offered. -/
def PlainTextFileInput.runner (TrimSpace : GoString → GoString) (ctx : Nat → CtxView) :
    Nat → List GoString → Feed
  | _, [] => { sent := [], eof := 1, linesPassed := 0 }
  | i, t :: ts =>
    if (ctx i).doneAtLoop then { sent := [], eof := 1, linesPassed := 0 }
    else
      let s := TrimSpace t
      if s.utf8ByteSize < 8 then PlainTextFileInput.runner TrimSpace ctx (i + 1) ts
      else if (ctx i).doneAtPush then { sent := [], eof := 1, linesPassed := 0 }
      else
        let f := PlainTextFileInput.runner TrimSpace ctx (i + 1) ts
        { sent := s :: f.sent, eof := f.eof, linesPassed := f.linesPassed + 1 }

/-- Go `func (inp *PlainTextFileInput) Next() <-chan string` after `Start`: the
values a reader receives from the channel until it is closed. -/
def PlainTextFileInput.Next (TrimSpace : GoString → GoString) (ctx : Nat → CtxView)
    (tokens : List GoString) : List GoString :=
  (PlainTextFileInput.runner TrimSpace ctx 0 tokens).sent

/-- A context that is never cancelled. -/
def Background : Nat → CtxView := fun _ => { doneAtLoop := false, doneAtPush := false }

/-- Go `unicode.IsSpace`. -/
def IsSpace (c : Char) : Bool :=
  c.toNat ∈ [0x09, 0x0A, 0x0B, 0x0C, 0x0D, 0x20, 0x85, 0xA0, 0x1680, 0x2028, 0x2029, 0x202F,
    0x205F, 0x3000] || (0x2000 ≤ c.toNat && c.toNat ≤ 0x200A)

/-- Go `strings.TrimSpace`: the string without leading and trailing white space. -/
def TrimSpace (s : GoString) : GoString :=
  String.mk ((s.data.dropWhile IsSpace).reverse.dropWhile IsSpace).reverse


/-! ## The selection loop, by counts -/

/-- The counts of the three slots, as a multiset. -/
def slotCounts (max : maxt × maxt × maxt) : Multiset Nat :=
  {max.1.count, max.2.1.count, max.2.2.count}

/-- The three largest of the counts `t` and the count `x`, largest first, for
counts `t` that are in non-increasing order. -/
def countStep (t : Nat × Nat × Nat) (x : Nat) : Nat × Nat × Nat :=
  (max t.1 x, max t.2.1 (min t.1 x), max t.2.2 (min t.2.1 (min t.1 x)))

/-! ## downloader.go: the constructor -/

/-- Go `time.Second`, in nanoseconds (`time.Duration` counts nanoseconds). -/
def Second : Int := 1000000000

/-- Go `const DefaultMaxConnsPerHost = 32`. -/
def DefaultMaxConnsPerHost : Int := 32

/-- Go `const DefaultReadTimeout = 8 * time.Second`. -/
def DefaultReadTimeout : Int := 8 * Second

/-- The fields of `fasthttp.Client` that the package sets. -/
structure Client where
  ReadTimeout : Int
  MaxConnsPerHost : Int
  ReadBufferSize : Int
  MaxResponseBodySize : Int
  deriving DecidableEq, Repr

/-- Go `type MediaDownloader struct`: the HTTP client and the capacity of the
channel `imgs` (the logger and the input are not modelled). -/
structure MediaDownloader where
  imgsCap : Nat
  client : Client
  deriving DecidableEq, Repr

/-- Go `func NewMediaDownloader(l zerolog.Logger, in Inputer) *MediaDownloader`. -/
def NewMediaDownloader : MediaDownloader :=
  { imgsCap := 10,
    client := { ReadTimeout := DefaultReadTimeout,
                MaxConnsPerHost := 1,
                ReadBufferSize := 6 * 1024 * 1024,
                MaxResponseBodySize := 16 * 1024 * 1024 } }

/-- Go `func (id *MediaDownloader) SetMaxConnsPerHost(n int)`. -/
def MediaDownloader.SetMaxConnsPerHost (id : MediaDownloader) (n : Int) : MediaDownloader :=
  { id with client := { id.client with MaxConnsPerHost := n } }

/-- Go `func (id *MediaDownloader) SetReadTimeout(d time.Duration)`. -/
def MediaDownloader.SetReadTimeout (id : MediaDownloader) (d : Int) : MediaDownloader :=
  { id with client := { id.client with ReadTimeout := d } }

/-! ## processor.go -/

/-- What one `select` of `ImageProcessor.runner` receives: the context is
done, the channel of the downloader is closed, or an image. -/
inductive Recv where
  | ctxDone
  | closed
  | img (m : Media)
  deriving DecidableEq, Repr

/-- The calls a worker makes on its collaborators: `ip.counter.Count(img)`,
`img.Reset()` and `ip.output.Save(res)`. -/
inductive Act where
  | Count (img : Media)
  | Reset (img : Media)
  | Save (res : Resulter)
  deriving DecidableEq, Repr

/-- The counters of `runner`: `totalb`, `msize`, `cnt`, `per100b`. -/
structure Stats where
  totalb : Nat
  msize : Nat
  cnt : Nat
  per100b : Nat
  deriving DecidableEq, Repr

/-- The statistics after an image of `size` bytes was counted without error. -/
def Stats.add (st : Stats) (size : Nat) : Stats :=
  let per100b := st.per100b + size
  let msize := if size > st.msize then size else st.msize
  let cnt := st.cnt + 1
  if cnt % 100 = 0 then
    { totalb := st.totalb + per100b, msize := msize, cnt := cnt, per100b := 0 }
  else
    { totalb := st.totalb, msize := msize, cnt := cnt, per100b := per100b }

/-- Go `func (ip *ImageProcessor) runner(ctx context.Context, num int)` over
what its `select` receives: the calls it makes, in order, and its counters.
`Count` is `ip.counter.Count`; an error of `ip.output.Save` is logged and the
loop goes on, as after a `nil`, so it is not an argument.  The events may end
before the worker returns. -/
def ImageProcessor.runner (Count : Media → Except GoString Resulter) :
    Stats → List Recv → List Act × Stats
  | st, [] => ([], st)
  | st, .ctxDone :: _ => ([], st)
  | st, .closed :: _ => ([], st)
  | st, .img img :: rest =>
    let size := img.Bytes.length
    match Count img with
    | .error _ =>
      let r := ImageProcessor.runner Count st rest
      (.Count img :: .Reset img :: r.1, r.2)
    | .ok res =>
      let r := ImageProcessor.runner Count (st.add size) rest
      (.Count img :: .Reset img :: .Save res :: r.1, r.2)

/-- The images a worker takes from the stream: those received before the
context is done or the channel is closed. -/
def pulled : List Recv → List Media
  | .img m :: rest => m :: pulled rest
  | _ => []

/-- The calls a worker makes for one image. -/
def callsFor (Count : Media → Except GoString Resulter) (m : Media) : List Act :=
  match Count m with
  | .ok res => [.Count m, .Reset m, .Save res]
  | .error _ => [.Count m, .Reset m]

/-- The records handed to `Save` in a list of calls, in order. -/
def savedOf : List Act → List Resulter
  | [] => []
  | .Save res :: rest => res :: savedOf rest
  | _ :: rest => savedOf rest

/-- The images `Reset` was called on in a list of calls, in order. -/
def resetOf : List Act → List Media
  | [] => []
  | .Reset m :: rest => m :: resetOf rest
  | _ :: rest => resetOf rest

/-- A counter that fails on an empty body and reports three black pixels
otherwise. -/
def sampleCount (m : Media) : Except GoString Resulter :=
  if m.Body.length = 0 then .error "image could not be decoded [EOF]"
  else .ok (Result.toResulter { URL := m.URL, Colors := (0, 0, 0) })

/-! ## plan_text_file_input.go: cancellation -/

/-- A run in which the context is cancelled while `runner` is in iteration
`k`, after its outer `select` took `default` and before its inner `select`,
with a reader waiting on `inp.line`: in iteration `k` both cases of the inner
`select` can proceed and the runtime picks one (`pickSend`); every later
iteration finds `ctx.Done()` ready in the outer `select`. -/
def cancelledDuring (k : Nat) (pickSend : Bool) : Nat → CtxView :=
  fun i =>
    { doneAtLoop := decide (k < i),
      doneAtPush := if i = k then !pickSend else decide (k < i) }

/-- Three lines of an input file. -/
def threeLines : List GoString :=
  ["http://host/1.jpeg", "http://host/2.jpeg", "http://host/3.jpeg"]

/-! ## output.go: the buffer -/

/-- The lines the buffer holds in a `Save` after its appends: the buffer, the
header when one is pending, and the record. -/
def BufferedCSV.pending (out : BufferedCSV) (res : Resulter) : List GoString :=
  out.buf ++ (if out.isHeadWriteRequired then [res.Header] else []) ++ [res.Result]

/-- A sink between two calls of `Save`: open on the file `n`, with capacity
`C` of at least 2, fewer than `C` lines in the buffer, and an empty buffer as
long as the header is pending. -/
def BufferedCSV.ready (out : BufferedCSV) (n : GoString) (C : Nat) : Prop :=
  out.file = some { name := n, closed := false } ∧ out.cap = C ∧ 2 ≤ C ∧
    out.buf.length < C ∧ (out.isHeadWriteRequired = true → out.buf = [])

/-- The sink and the file system after `NewBufferedCSV(size)`, `Open(fname)`
and `Save` of every record of `rs`, without I/O error. -/
def sinkAfter (grow : Nat → Nat) (size : Int) (fs : FS) (fname : GoString)
    (rs : List Resulter) : BufferedCSV × FS :=
  let o := (NewBufferedCSV size).Open fs fname none none
  let s := BufferedCSV.SaveAll grow o.1 o.2.1 rs
  (s.1, s.2.1)

/-- Two records. -/
def recordA : Resulter := Result.toResulter { URL := "http://host/1.jpeg", Colors := (1, 2, 3) }

/-- The second of two records. -/
def recordB : Resulter := Result.toResulter { URL := "http://host/2.jpeg", Colors := (4, 5, 6) }

/-! ## Go `image/color` and `image/draw` -/

/-- One channel of Go `color.YCbCr.RGBA()` from its `int32` intermediate `v`:
`v >> 8` when the top byte of `uint32(v)` is zero, else `^(v >> 31) & 0xffff`
(0 for a negative `v`, `0xffff` for a large one). -/
def channel16 (v : Int) : Nat :=
  if 0 ≤ v ∧ v < 2 ^ 24 then (v / 256).toNat else if v < 0 then 0 else 0xFFFF

/-- One channel of Go `color.YCbCrToRGB` from its `int32` intermediate `v`:
`v >> 16` when the top byte of `uint32(v)` is zero, else `uint8(^(v >> 31))`. -/
def channel8 (v : Int) : Nat :=
  if 0 ≤ v ∧ v < 2 ^ 24 then (v / 65536).toNat else if v < 0 then 0 else 0xFF

/-- Go `func (c YCbCr) RGBA() (uint32, uint32, uint32, uint32)` of the
standard library (`image/color`), without the alpha `0xffff`: the channels of
the pixel with 16 bits each. -/
def colorRGBA (c : Nat × Nat × Nat) : Nat × Nat × Nat :=
  let yy1 : Int := (c.1 : Int) * 0x10101
  let cb1 : Int := (c.2.1 : Int) - 128
  let cr1 : Int := (c.2.2 : Int) - 128
  (channel16 (yy1 + 91881 * cr1), channel16 (yy1 - 22554 * cb1 - 46802 * cr1),
    channel16 (yy1 + 116130 * cb1))

/-- Go `func YCbCrToRGB(y, cb, cr uint8) (uint8, uint8, uint8)` of the
standard library, the conversion `draw.Draw` applies to a `*image.YCbCr`
source: the channels of the pixel with 8 bits each. -/
def YCbCrToRGB (c : Nat × Nat × Nat) : Nat × Nat × Nat :=
  let yy1 : Int := (c.1 : Int) * 0x10101
  let cb1 : Int := (c.2.1 : Int) - 128
  let cr1 : Int := (c.2.2 : Int) - 128
  (channel8 (yy1 + 91881 * cr1), channel8 (yy1 - 22554 * cb1 - 46802 * cr1),
    channel8 (yy1 + 116130 * cb1))

/-- A decoded colour JPEG: its size and the `(Y, Cb, Cr)` sample of each
pixel. -/
structure Decoded where
  width : Nat
  height : Nat
  At : Nat → Nat → Nat × Nat × Nat

/-- The `*image.YCbCr` of a decoded JPEG as `CounterDefault.Count` reads it:
`img.YCbCrAt(x, y).RGBA()` per pixel. -/
def Decoded.toYCbCr (d : Decoded) : YCbCr :=
  { MaxX := d.width, MaxY := d.height, RGBAAt := fun x y => colorRGBA (d.At x y) }

/-- The `Pix` of the `image.RGBA` that `draw.Draw` fills from a decoded JPEG:
`R, G, B, A` per pixel, row by row, with alpha 255. -/
def Decoded.toPix (d : Decoded) : Bytes :=
  (List.range d.height).flatMap fun y =>
    (List.range d.width).flatMap fun x =>
      [(YCbCrToRGB (d.At x y)).1, (YCbCrToRGB (d.At x y)).2.1, (YCbCrToRGB (d.At x y)).2.2, 255]

/-- The colours of the pixels of a decoded JPEG, row by row, packed as
`0x00RRGGBB`. -/
def Decoded.colors (d : Decoded) : List RGB :=
  (List.range d.height).flatMap fun y =>
    (List.range d.width).map fun x => rgbOf (YCbCrToRGB (d.At x y))

/-- A 2x2 JPEG of pure red: every sample is `(Y, Cb, Cr) = (76, 85, 255)`. -/
def redJPEG : Decoded := { width := 2, height := 2, At := fun _ _ => (76, 85, 255) }

/-- The RGBA buffer of a 4x4 image: 4 red pixels followed by 12 blue pixels. -/
def redThenBlue : Bytes :=
  [255, 0, 0, 255,  255, 0, 0, 255,  255, 0, 0, 255,  255, 0, 0, 255,
   0, 0, 255, 255,  0, 0, 255, 255,  0, 0, 255, 255,  0, 0, 255, 255,
   0, 0, 255, 255,  0, 0, 255, 255,  0, 0, 255, 255,  0, 0, 255, 255,
   0, 0, 255, 255,  0, 0, 255, 255,  0, 0, 255, 255,  0, 0, 255, 255]

/-! # Theorems -/


/-! ## Rendering of colours -/

theorem toDigitsCore_step (f n : Nat) (ds : List Char) :
    Nat.toDigitsCore 16 (f + 1) n ds =
      if n / 16 = 0 then (n % 16).digitChar :: ds
      else Nat.toDigitsCore 16 f (n / 16) ((n % 16).digitChar :: ds) := by
  simp [Nat.toDigitsCore]

theorem digitChar_lowerHex (d : Nat) (h : d < 16) : d.digitChar = lowerHex.getD d '?' := by
  interval_cases d <;> rfl

theorem mask_or (rgb : Nat) :
    (rgb &&& 0x00FFFFFF) ||| 0x0F000000 = 0x0F000000 + rgb % 2 ^ 24 := by
  have h1 : rgb &&& 0x00FFFFFF = rgb % 2 ^ 24 := Nat.and_pow_two_sub_one_eq_mod rgb 24
  have h2 : rgb % 2 ^ 24 < 2 ^ 24 := Nat.mod_lt _ (by norm_num)
  have h3 := Nat.mul_add_lt_is_or h2 15
  rw [h1, Nat.lor_comm]
  simpa using h3.symm

/-- The method `RGB.String` renders the low 24 bits as `#` and six lowercase hexadecimal
digits. -/
theorem RGB_String_eq (rgb : Nat) : RGB.String rgb = rrggbb rgb := by
  unfold RGB.String rrggbb AppendUint
  simp only [mask_or]
  have hv : rgb % 2 ^ 24 < 2 ^ 24 := Nat.mod_lt _ (by norm_num)
  generalize rgb % 2 ^ 24 = v at hv
  obtain ⟨f, hf⟩ : ∃ f, 0x0F000000 + v + 1 = f + 7 := ⟨0x0F000000 + v - 6, by omega⟩
  unfold Nat.toDigits
  rw [hf]
  simp only [toDigitsCore_step]
  have e1 : ¬ ((0x0F000000 + v) / 16 = 0) := by omega
  have e2 : ¬ ((0x0F000000 + v) / 16 / 16 = 0) := by omega
  have e3 : ¬ ((0x0F000000 + v) / 16 / 16 / 16 = 0) := by omega
  have e4 : ¬ ((0x0F000000 + v) / 16 / 16 / 16 / 16 = 0) := by omega
  have e5 : ¬ ((0x0F000000 + v) / 16 / 16 / 16 / 16 / 16 = 0) := by omega
  have e6 : ¬ ((0x0F000000 + v) / 16 / 16 / 16 / 16 / 16 / 16 = 0) := by omega
  have e7 : (0x0F000000 + v) / 16 / 16 / 16 / 16 / 16 / 16 / 16 = 0 := by omega
  simp only [e1, e2, e3, e4, e5, e6, e7, if_true, if_false, List.set_cons_zero]
  have d0 : (0x0F000000 + v) % 16 = v % 16 := by omega
  have d1 : (0x0F000000 + v) / 16 % 16 = v / 16 % 16 := by omega
  have d2 : (0x0F000000 + v) / 16 / 16 % 16 = v / 16 ^ 2 % 16 := by
    rw [show v / 16 ^ 2 = v / 16 / 16 by simp [Nat.div_div_eq_div_mul]]; omega
  have d3 : (0x0F000000 + v) / 16 / 16 / 16 % 16 = v / 16 ^ 3 % 16 := by
    rw [show v / 16 ^ 3 = v / 16 / 16 / 16 by simp [Nat.div_div_eq_div_mul]]; omega
  have d4 : (0x0F000000 + v) / 16 / 16 / 16 / 16 % 16 = v / 16 ^ 4 % 16 := by
    rw [show v / 16 ^ 4 = v / 16 / 16 / 16 / 16 by simp [Nat.div_div_eq_div_mul]]; omega
  have d5 : (0x0F000000 + v) / 16 / 16 / 16 / 16 / 16 % 16 = v / 16 ^ 5 % 16 := by
    rw [show v / 16 ^ 5 = v / 16 / 16 / 16 / 16 / 16 by simp [Nat.div_div_eq_div_mul]]; omega
  rw [d0, d1, d2, d3, d4, d5]
  simp only [hex6]
  congr 1
  simp [digitChar_lowerHex, Nat.mod_lt]

theorem lowerHex_getD_mem (d : Nat) (h : d < 16) : lowerHex.getD d '?' ∈ lowerHex := by
  interval_cases d <;> decide

/-- C10: `Result()` is the URL and the three colours, each in double quotes,
separated by commas and followed by one newline; each colour is rendered as
`#` followed by exactly six lowercase hexadecimal digits of the low 24 bits
of the value, also when its top byte is not zero. -/
theorem Result_Result_format (url : GoString) (c1 c2 c3 : Nat) :
    Result.Result { URL := url, Colors := (c1, c2, c3) }
      = "\"" ++ url ++ "\",\"" ++ rrggbb c1 ++ "\",\"" ++ rrggbb c2 ++ "\",\"" ++ rrggbb c3
          ++ "\"\n" ∧
    (∀ v : Nat, RGB.String v = String.mk ('#' :: hex6 (v % 2 ^ 24)) ∧
      (hex6 (v % 2 ^ 24)).length = 6 ∧ ∀ ch ∈ hex6 (v % 2 ^ 24), ch ∈ lowerHex) ∧
    RGB.String 0x11223344 = "#223344" ∧ RGB.String 0xAA = "#0000aa" := by
  refine ⟨?_, ?_, by decide, by decide⟩
  · simp only [Result.Result, RGB_String_eq]
  · intro v
    refine ⟨RGB_String_eq v, rfl, ?_⟩
    intro ch hch
    simp only [hex6, List.mem_cons, List.mem_singleton, List.not_mem_nil, or_false] at hch
    rcases hch with h | h | h | h | h | h <;> rw [h] <;>
      exact lowerHex_getD_mem _ (Nat.mod_lt _ (by norm_num))


/-! ## Lemmas on the histogram -/

theorem Histogram.get_incr (m : Histogram) (c k : RGB) :
    (m.incr c).get k = if c = k then (m.get k + 1) % 2 ^ 32 else m.get k := by
  induction m with
  | nil =>
    by_cases h : c = k <;> simp [Histogram.incr, Histogram.get, h]
  | cons e rest ih =>
    obtain ⟨k', n⟩ := e
    by_cases h1 : k' = c
    · by_cases h2 : c = k
      · subst h1; subst h2; simp [Histogram.incr, Histogram.get]
      · have h3 : ¬ k' = k := by rw [h1]; exact h2
        simp [Histogram.incr, Histogram.get, h1, h2]
    · by_cases h2 : k' = k
      · have h3 : ¬ c = k := by rw [← h2]; exact fun h => h1 h.symm
        subst h2
        simp [Histogram.incr, Histogram.get, h1, h3]
      · simp [Histogram.incr, Histogram.get, h1, h2, ih]

theorem Histogram.keys_incr (m : Histogram) (c : RGB) :
    (m.incr c).map Prod.fst = if c ∈ m.map Prod.fst then m.map Prod.fst else m.map Prod.fst ++ [c] := by
  induction m with
  | nil => simp [Histogram.incr]
  | cons e rest ih =>
    obtain ⟨k', n⟩ := e
    by_cases h1 : k' = c
    · subst h1; simp [Histogram.incr]
    · have h2 : ¬ c = k' := fun h => h1 h.symm
      by_cases h3 : c ∈ rest.map Prod.fst
      · simp [Histogram.incr, h1, h2, ih, h3]
      · simp [Histogram.incr, h1, h2, ih, h3]

theorem Histogram.nodup_incr (m : Histogram) (c : RGB) (h : (m.map Prod.fst).Nodup) :
    ((m.incr c).map Prod.fst).Nodup := by
  rw [Histogram.keys_incr]
  by_cases h3 : c ∈ m.map Prod.fst
  · simp only [h3, if_true]; exact h
  · simp only [h3, if_false]
    exact List.Nodup.append h (List.nodup_singleton c) (by
      intro a ha hc
      simp at hc
      subst hc
      exact h3 ha)

theorem Histogram.get_of_mem (m : Histogram) (h : (m.map Prod.fst).Nodup) (k : RGB) (n : Nat)
    (hm : (k, n) ∈ m) : m.get k = n := by
  induction m with
  | nil => simp at hm
  | cons e rest ih =>
    obtain ⟨k', n'⟩ := e
    simp only [List.map_cons, List.nodup_cons] at h
    rcases List.mem_cons.mp hm with heq | hin
    · cases heq; simp [Histogram.get]
    · have hne : ¬ k' = k := by
        intro hk
        subst hk
        exact h.1 (List.mem_map.mpr ⟨(k', n), hin, rfl⟩)
      simp [Histogram.get, hne, ih h.2 hin]

/-- The histogram built from the colours `cs`, counted one by one. -/
theorem foldl_incr_snoc (cs : List RGB) (c : RGB) (m : Histogram) :
    (cs ++ [c]).foldl Histogram.incr m = (cs.foldl Histogram.incr m).incr c := by
  simp [List.foldl_append]

theorem foldl_incr_nodup (cs : List RGB) :
    ((cs.foldl Histogram.incr []).map Prod.fst).Nodup := by
  induction cs using List.reverseRecOn with
  | nil => simp
  | append_singleton cs c ih =>
    rw [foldl_incr_snoc]
    exact Histogram.nodup_incr _ _ ih

theorem foldl_incr_get (cs : List RGB) (k : RGB) :
    (cs.foldl Histogram.incr []).get k = cs.count k % 2 ^ 32 := by
  induction cs using List.reverseRecOn with
  | nil => simp [Histogram.get]
  | append_singleton cs c ih =>
    rw [foldl_incr_snoc, Histogram.get_incr, ih, List.count_append]
    by_cases h : c = k
    · subst h; simp [Nat.add_mod]
    · simp [h, List.count_singleton]

theorem foldl_incr_keys (cs : List RGB) (k : RGB) :
    k ∈ (cs.foldl Histogram.incr []).map Prod.fst ↔ k ∈ cs := by
  induction cs using List.reverseRecOn with
  | nil => simp
  | append_singleton cs c ih =>
    rw [foldl_incr_snoc, Histogram.keys_incr]
    by_cases h3 : c ∈ (cs.foldl Histogram.incr []).map Prod.fst
    · simp only [h3, if_true, List.mem_append, List.mem_singleton, ih]
      constructor
      · intro h; exact Or.inl h
      · rintro (h | h)
        · exact h
        · subst h; exact ih.mp h3
    · simp only [h3, if_false, List.mem_append, List.mem_singleton, ih]


/-! ## Lemmas on the pixel loops -/

theorem scan_foldl (ps : List (Nat × Nat × Nat)) (st : Scan) :
    (ps.foldl Scan.visit st).color = (ps.map rgbOf).foldl Histogram.incr st.color ∧
    (ps.foldl Scan.visit st).seed.1.color
      = ((ps.map rgbOf).getLast?).getD (ToRGB st.r st.g st.b) := by
  induction ps using List.reverseRecOn with
  | nil => simp [Scan.seed]
  | append_singleton ps p ih =>
    simp [List.foldl_append, Scan.visit, Scan.seed, rgbOf, ih.1]

theorem seed_eq (st : Scan) :
    st.seed = (⟨st.seed.1.color, 1⟩, ⟨st.seed.1.color, 1⟩, ⟨st.seed.1.color, 1⟩) := rfl

theorem foldl_nested {α β γ : Type} (f : β → List γ) (g : α → γ → α) (l : List β) (a : α) :
    l.foldl (fun st y => (f y).foldl g st) a = (l.flatMap f).foldl g a := by
  induction l generalizing a with
  | nil => simp
  | cons y ys ih => simp [List.flatMap_cons, List.foldl_append, ih]

theorem CounterDefault.scan_eq (img : YCbCr) :
    CounterDefault.scan img =
      (((List.range img.MaxY).flatMap fun y =>
        (List.range img.MaxX).map fun x => img.RGBAAt x y).foldl Scan.visit
        { color := [], r := 0, g := 0, b := 0 }) := by
  unfold CounterDefault.scan
  rw [← foldl_nested]
  simp [List.foldl_map]

theorem CounterDefault.scan_histogram (img : YCbCr) :
    (CounterDefault.scan img).color = img.colors.foldl Histogram.incr [] ∧
    (CounterDefault.scan img).seed.1.color = (img.colors.getLast?).getD 0 := by
  have h := scan_foldl ((List.range img.MaxY).flatMap fun y =>
        (List.range img.MaxX).map fun x => img.RGBAAt x y) { color := [], r := 0, g := 0, b := 0 }
  rw [← CounterDefault.scan_eq] at h
  have e : (((List.range img.MaxY).flatMap fun y =>
        (List.range img.MaxX).map fun x => img.RGBAAt x y).map rgbOf) = img.colors := by
    simp [YCbCr.colors, List.map_flatMap, Function.comp_def]
  rw [e] at h
  exact ⟨h.1, by rw [h.2]; rfl⟩

theorem CounterPix.scan_visited (Pix : Bytes) :
    (CounterPix.scan Pix).color = (CounterPix.visited Pix).foldl Histogram.incr [] ∧
    (CounterPix.scan Pix).seed.1.color = ((CounterPix.visited Pix).getLast?).getD 0 := by
  have h := scan_foldl (((List.range (Pix.length / 4)).filter (fun i => i % 4 = 0)).map fun i =>
      (Pix.getD i 0, Pix.getD (i + 1) 0, Pix.getD (i + 2) 0)) { color := [], r := 0, g := 0, b := 0 }
  have e : CounterPix.scan Pix = ((((List.range (Pix.length / 4)).filter (fun i => i % 4 = 0)).map
      fun i => (Pix.getD i 0, Pix.getD (i + 1) 0, Pix.getD (i + 2) 0)).foldl Scan.visit
      { color := [], r := 0, g := 0, b := 0 }) := by
    simp [CounterPix.scan, List.foldl_map]
  rw [← e] at h
  have e2 : ((((List.range (Pix.length / 4)).filter (fun i => i % 4 = 0)).map fun i =>
      (Pix.getD i 0, Pix.getD (i + 1) 0, Pix.getD (i + 2) 0)).map rgbOf)
      = CounterPix.visited Pix := by
    simp [CounterPix.visited, List.map_map, Function.comp_def]
  rw [e2] at h
  exact ⟨h.1, by rw [h.2]; rfl⟩

theorem YCbCr.colors_length (img : YCbCr) : img.colors.length = img.MaxY * img.MaxX := by
  simp [YCbCr.colors, List.length_flatMap, Function.comp_def]

theorem YCbCr.mem_colors (img : YCbCr) (c : RGB) :
    c ∈ img.colors ↔ ∃ x y, x < img.MaxX ∧ y < img.MaxY ∧ rgbOf (img.RGBAAt x y) = c := by
  simp only [YCbCr.colors, List.mem_flatMap, List.mem_map, List.mem_range]
  constructor
  · rintro ⟨y, hy, x, hx, h⟩; exact ⟨x, y, hx, hy, h⟩
  · rintro ⟨x, y, hx, hy, h⟩; exact ⟨y, hy, x, hx, h⟩

theorem CounterPix.visited_sub (Pix : Bytes) (c : RGB) (h : c ∈ CounterPix.visited Pix) :
    ∃ i, i % 4 = 0 ∧ i < Pix.length / 4 ∧
      rgbOf (Pix.getD i 0, Pix.getD (i + 1) 0, Pix.getD (i + 2) 0) = c := by
  simp only [CounterPix.visited, List.mem_map, List.mem_filter, List.mem_range,
    decide_eq_true_eq] at h
  obtain ⟨i, ⟨h1, h2⟩, h3⟩ := h
  exact ⟨i, h2, h1, h3⟩

theorem CounterPix.visited_ne_nil (Pix : Bytes) (h : 4 ≤ Pix.length) :
    CounterPix.visited Pix ≠ [] := by
  intro hnil
  have hm : rgbOf (Pix.getD 0 0, Pix.getD (0 + 1) 0, Pix.getD (0 + 2) 0) ∈ CounterPix.visited Pix := by
    simp only [CounterPix.visited, List.mem_map, List.mem_filter, List.mem_range,
      decide_eq_true_eq]
    exact ⟨0, ⟨by omega, rfl⟩, rfl⟩
  rw [hnil] at hm
  simp at hm

theorem CounterPix.visited_length (Pix : Bytes) :
    (CounterPix.visited Pix).length ≤ Pix.length / 4 := by
  simp only [CounterPix.visited, List.length_map]
  calc ((List.range (Pix.length / 4)).filter (fun i => i % 4 = 0)).length
      ≤ (List.range (Pix.length / 4)).length := List.length_filter_le _ _
    _ = Pix.length / 4 := List.length_range _


/-! ## Lemmas on the selection loop -/

theorem selectStep_sorted (s : maxt × maxt × maxt) (e : RGB × Nat) (h : sortedSlots s) :
    sortedSlots (selectStep s e) := by
  obtain ⟨h1, h2⟩ := h
  simp only [selectStep, sortedSlots]
  split_ifs <;> (try simp only []) <;> omega

theorem selectStep_top (s : maxt × maxt × maxt) (e : RGB × Nat) (h : sortedSlots s) :
    e.2 ≤ (selectStep s e).1.count ∧ s.1.count ≤ (selectStep s e).1.count ∧
      ((selectStep s e).1 = s.1 ∨ (selectStep s e).1 = ⟨e.1, e.2⟩) := by
  obtain ⟨h1, h2⟩ := h
  simp only [selectStep]
  split_ifs <;> simp <;> omega

theorem selectMax_top (order : List (RGB × Nat)) (seed : maxt × maxt × maxt)
    (h : sortedSlots seed) :
    sortedSlots (selectMax seed order) ∧
    (∀ e ∈ order, e.2 ≤ (selectMax seed order).1.count) ∧
    seed.1.count ≤ (selectMax seed order).1.count ∧
    ((selectMax seed order).1 = seed.1 ∨
      ((selectMax seed order).1.color, (selectMax seed order).1.count) ∈ order) := by
  induction order generalizing seed with
  | nil => exact ⟨h, by simp, le_refl _, Or.inl rfl⟩
  | cons e rest ih =>
    have hs := selectStep_sorted seed e h
    obtain ⟨t1, t2, t3⟩ := selectStep_top seed e h
    obtain ⟨i1, i2, i3, i4⟩ := ih (selectStep seed e) hs
    have hfold : selectMax seed (e :: rest) = selectMax (selectStep seed e) rest := rfl
    rw [hfold]
    refine ⟨i1, ?_, le_trans t2 i3, ?_⟩
    · intro x hx
      rcases List.mem_cons.mp hx with hx | hx
      · subst hx; exact le_trans t1 i3
      · exact i2 x hx
    · rcases i4 with i4 | i4
      · rcases t3 with t3 | t3
        · exact Or.inl (i4.trans t3)
        · right
          rw [i4, t3]
          exact List.mem_cons_self _ _
      · exact Or.inr (List.mem_cons_of_mem _ i4)

theorem selectStep_colors (c : RGB) (s : maxt × maxt × maxt) (e : RGB × Nat)
    (hs : s.1.color = c ∧ s.2.1.color = c ∧ s.2.2.color = c) (he : e.1 = c) :
    (selectStep s e).1.color = c ∧ (selectStep s e).2.1.color = c ∧
      (selectStep s e).2.2.color = c := by
  obtain ⟨h1, h2, h3⟩ := hs
  simp only [selectStep]
  split_ifs <;> simp [*]

theorem selectMax_colors (c : RGB) (order : List (RGB × Nat)) (seed : maxt × maxt × maxt)
    (hs : seed.1.color = c ∧ seed.2.1.color = c ∧ seed.2.2.color = c)
    (ho : ∀ e ∈ order, e.1 = c) :
    (selectMax seed order).1.color = c ∧ (selectMax seed order).2.1.color = c ∧
      (selectMax seed order).2.2.color = c := by
  induction order generalizing seed with
  | nil => exact hs
  | cons e rest ih =>
    exact ih (selectStep seed e)
      (selectStep_colors c seed e hs (ho e (List.mem_cons_self _ _)))
      (fun x hx => ho x (List.mem_cons_of_mem _ hx))

/-- An entry whose count does not exceed one leaves slots seeded with count one
as they are. -/
theorem selectMax_ones (c : RGB) (order : List (RGB × Nat)) (ho : ∀ e ∈ order, e.2 ≤ 1) :
    selectMax (⟨c, 1⟩, ⟨c, 1⟩, ⟨c, 1⟩) order = (⟨c, 1⟩, ⟨c, 1⟩, ⟨c, 1⟩) := by
  induction order with
  | nil => rfl
  | cons e rest ih =>
    have h1 : e.2 ≤ 1 := ho e (List.mem_cons_self _ _)
    have hstep : selectStep (⟨c, 1⟩, ⟨c, 1⟩, ⟨c, 1⟩) e = (⟨c, 1⟩, ⟨c, 1⟩, ⟨c, 1⟩) := by
      simp only [selectStep]
      split_ifs <;> first | rfl | (exfalso; simp at *; omega)
    have hfold : selectMax (⟨c, 1⟩, ⟨c, 1⟩, ⟨c, 1⟩) (e :: rest)
        = selectMax (selectStep (⟨c, 1⟩, ⟨c, 1⟩, ⟨c, 1⟩) e) rest := rfl
    rw [hfold, hstep]
    exact ih (fun x hx => ho x (List.mem_cons_of_mem _ hx))

/-- The first slot holds a colour whose count in the histogram is not below
any count of the histogram. -/
theorem top_most_frequent (cs : List RGB) (hne : cs ≠ []) (hlen : cs.length < 2 ^ 32)
    (st : Scan) (hc : st.color = cs.foldl Histogram.incr [])
    (hseed : st.seed.1.color = (cs.getLast?).getD 0)
    (order : List (RGB × Nat)) (hp : order.Perm st.color) :
    ∀ e ∈ st.color, e.2 ≤ st.color.get (selectMax st.seed order).1.color := by
  have hsorted : sortedSlots st.seed := ⟨le_refl _, le_refl _⟩
  obtain ⟨_, i2, _, i4⟩ := selectMax_top order st.seed hsorted
  have hnd : (st.color.map Prod.fst).Nodup := by rw [hc]; exact foldl_incr_nodup cs
  intro e he
  have he2 := i2 e (hp.symm.subset he)
  rcases i4 with i4 | i4
  · -- the seed is still in the first slot: every count is at most one
    rw [i4] at he2 ⊢
    have hlast : st.seed.1.color ∈ cs := by
      rw [hseed]
      cases hl : cs.getLast? with
      | none => exact absurd (List.getLast?_eq_none_iff.mp hl) hne
      | some x => exact List.mem_of_getLast?_eq_some hl
    have hcount : 0 < cs.count st.seed.1.color := List.count_pos_iff.mpr hlast
    have hle : cs.count st.seed.1.color ≤ cs.length := List.count_le_length _ _
    rw [hc, foldl_incr_get, Nat.mod_eq_of_lt (lt_of_le_of_lt hle hlen)]
    have : st.seed.1.count = 1 := rfl
    omega
  · have hmem := hp.subset i4
    rw [Histogram.get_of_mem st.color hnd _ _ hmem]
    exact he2


/-! ## The counters -/

theorem single_colour (c : RGB) (cs : List RGB) (hne : cs ≠ []) (hall : ∀ x ∈ cs, x = c)
    (st : Scan) (hc : st.color = cs.foldl Histogram.incr [])
    (hseed : st.seed.1.color = (cs.getLast?).getD 0)
    (order : List (RGB × Nat)) (hp : order.Perm st.color) :
    ((selectMax st.seed order).1.color, (selectMax st.seed order).2.1.color,
      (selectMax st.seed order).2.2.color) = (c, c, c) := by
  have hlast : st.seed.1.color = c := by
    rw [hseed]
    cases hl : cs.getLast? with
    | none => exact absurd (List.getLast?_eq_none_iff.mp hl) hne
    | some x => exact hall x (List.mem_of_getLast?_eq_some hl)
  have hs : st.seed.1.color = c ∧ st.seed.2.1.color = c ∧ st.seed.2.2.color = c :=
    ⟨hlast, hlast, hlast⟩
  have ho : ∀ e ∈ order, e.1 = c := by
    intro e he
    have h1 : e.1 ∈ st.color.map Prod.fst := List.mem_map.mpr ⟨e, hp.subset he, rfl⟩
    rw [hc] at h1
    exact hall _ ((foldl_incr_keys cs e.1).mp h1)
  obtain ⟨r1, r2, r3⟩ := selectMax_colors c order st.seed hs ho
  rw [r1, r2, r3]

theorem YCbCr.colors_ne_nil (img : YCbCr) (hx : 0 < img.MaxX) (hy : 0 < img.MaxY) :
    img.colors ≠ [] := by
  intro h
  have hl := YCbCr.colors_length img
  rw [h] at hl
  have : 0 < img.MaxY * img.MaxX := Nat.mul_pos hy hx
  simp at hl
  omega

theorem CounterPix.visited_mem_pixColors (Pix : Bytes) (c : RGB)
    (h : c ∈ CounterPix.visited Pix) : c ∈ pixColors Pix := by
  obtain ⟨i, h1, h2, h3⟩ := CounterPix.visited_sub Pix c h
  simp only [pixColors, List.mem_map, List.mem_range]
  refine ⟨i / 4, by omega, ?_⟩
  have e : 4 * (i / 4) = i := by omega
  rw [e]
  exact h3

/-- In `CounterDefault` the count stored under a colour is the number of
pixels of that colour, and a colour is a key exactly when a pixel has it. -/
theorem CounterDefault.histogram_counts (img : YCbCr) (hsize : img.MaxX * img.MaxY < 2 ^ 32)
    (k : RGB) :
    (CounterDefault.scan img).color.get k = img.colors.count k ∧
    (k ∈ (CounterDefault.scan img).color.map Prod.fst ↔ k ∈ img.colors) := by
  rw [(CounterDefault.scan_histogram img).1, foldl_incr_get, foldl_incr_keys]
  refine ⟨Nat.mod_eq_of_lt ?_, Iff.rfl⟩
  have h1 : img.colors.count k ≤ img.colors.length := List.count_le_length _ _
  rw [YCbCr.colors_length, Nat.mul_comm] at h1
  omega


/-- C1: on an image whose histogram holds three colours, each counted once,
`Count` does not return three different colours: for every order in which
`range` may visit the map, `CounterDefault` (on a 3x1 red, green, blue image)
and `CounterPix` (on a 3x3 image whose counted pixels are red, green, blue)
return the colour of the pixel counted last three times. -/
theorem Count_repeats_last_colour {Image : Type} (rt : Runtime Image)
    (hrange : ∀ m, (rt.rangeOrder m).Perm m) (pic : Media) (oimg : Image)
    (hdec : rt.Decode pic.Bytes = .ok oimg) :
    (rt.asYCbCr oimg = some threePixels →
      (CounterDefault.scan threePixels).color = [(0xFF0000, 1), (0x00FF00, 1), (0x0000FF, 1)] ∧
      CounterDefault.Count rt pic = .ok { URL := pic.URL, Colors := (0x0000FF, 0x0000FF, 0x0000FF) }) ∧
    (rt.drawPix oimg = ninePixels →
      (CounterPix.scan ninePixels).color = [(0xFF0000, 1), (0x00FF00, 1), (0x0000FF, 1)] ∧
      CounterPix.Count rt pic = .ok { URL := pic.URL, Colors := (0x0000FF, 0x0000FF, 0x0000FF) }) := by
  have hones : ∀ e ∈ rt.rangeOrder [(0xFF0000, 1), (0x00FF00, 1), (0x0000FF, 1)], e.2 ≤ 1 := by
    intro e he
    have := (hrange _).subset he
    simp only [List.mem_cons, List.mem_singleton, List.not_mem_nil, or_false] at this
    rcases this with h | h | h <;> rw [h]
  constructor
  · intro himg
    have hcol : (CounterDefault.scan threePixels).color
        = [(0xFF0000, 1), (0x00FF00, 1), (0x0000FF, 1)] := by decide
    have hseed : (CounterDefault.scan threePixels).seed
        = (⟨0x0000FF, 1⟩, ⟨0x0000FF, 1⟩, ⟨0x0000FF, 1⟩) := by decide
    refine ⟨hcol, ?_⟩
    simp only [CounterDefault.Count, hdec, himg, hcol, hseed]
    rw [selectMax_ones _ _ hones]
  · intro hpix
    have hcol : (CounterPix.scan ninePixels).color
        = [(0xFF0000, 1), (0x00FF00, 1), (0x0000FF, 1)] := by decide
    have hseed : (CounterPix.scan ninePixels).seed
        = (⟨0x0000FF, 1⟩, ⟨0x0000FF, 1⟩, ⟨0x0000FF, 1⟩) := by decide
    refine ⟨hcol, ?_⟩
    simp only [CounterPix.Count, hdec, hpix, hcol, hseed]
    rw [selectMax_ones _ _ hones]

theorem Count_repeats_last_colour_witness :
    CounterDefault.Count (fixedRuntime threePixels ninePixels) somePic
      = .ok { URL := somePic.URL, Colors := (0x0000FF, 0x0000FF, 0x0000FF) } ∧
    CounterPix.Count (fixedRuntime threePixels ninePixels) somePic
      = .ok { URL := somePic.URL, Colors := (0x0000FF, 0x0000FF, 0x0000FF) } :=
  ⟨((Count_repeats_last_colour (fixedRuntime threePixels ninePixels)
      (fun m => List.Perm.refl m) somePic () rfl).1 rfl).2,
   ((Count_repeats_last_colour (fixedRuntime threePixels ninePixels)
      (fun m => List.Perm.refl m) somePic () rfl).2 rfl).2⟩

/-- C2: the pixel loop of `CounterPix` does not visit every pixel: on the
buffer of a 2x1 image (a red and a blue pixel) the histogram holds the red
pixel only, its counts sum to 1 and not to 2, and blue is counted 0 times. -/
theorem CounterPix_scan_skips_pixels :
    pixColors twoPixels = [0xFF0000, 0x0000FF] ∧
    (CounterPix.scan twoPixels).color = [(0xFF0000, 1)] ∧
    (((CounterPix.scan twoPixels).color.map Prod.snd).sum = 1) ∧
    (CounterPix.scan twoPixels).color.get 0x0000FF = 0 ∧
    (pixColors twoPixels).count 0x0000FF = 1 := by
  decide

/-- When every pixel is counted under one packed colour `c` (by `CounterDefault`
the packing `ToRGB` of the 16-bit channels of `RGBA()`, by `CounterPix` the
packing of the bytes of `Pix`), the counter returns `(c, c, c)`, whatever the
order of `range`. -/
theorem Count_one_packed_colour {Image : Type} (rt : Runtime Image)
    (hrange : ∀ m, (rt.rangeOrder m).Perm m) (pic : Media) (oimg : Image)
    (hdec : rt.Decode pic.Bytes = .ok oimg) (c : RGB) :
    (∀ img, rt.asYCbCr oimg = some img → 0 < img.MaxX → 0 < img.MaxY →
      (∀ x y, x < img.MaxX → y < img.MaxY → rgbOf (img.RGBAAt x y) = c) →
      CounterDefault.Count rt pic = .ok { URL := pic.URL, Colors := (c, c, c) }) ∧
    (4 ≤ (rt.drawPix oimg).length → (∀ p ∈ pixColors (rt.drawPix oimg), p = c) →
      CounterPix.Count rt pic = .ok { URL := pic.URL, Colors := (c, c, c) }) := by
  constructor
  · intro img himg hx hy hall
    have hall2 : ∀ p ∈ img.colors, p = c := by
      intro p hp
      obtain ⟨x, y, h1, h2, h3⟩ := (YCbCr.mem_colors img p).mp hp
      rw [← h3]
      exact hall x y h1 h2
    have h := single_colour c img.colors (YCbCr.colors_ne_nil img hx hy) hall2
      (CounterDefault.scan img) (CounterDefault.scan_histogram img).1
      (CounterDefault.scan_histogram img).2 (rt.rangeOrder (CounterDefault.scan img).color)
      (hrange _)
    simp only [CounterDefault.Count, hdec, himg, h]
  · intro hlen hall
    have hall2 : ∀ p ∈ CounterPix.visited (rt.drawPix oimg), p = c :=
      fun p hp => hall p (CounterPix.visited_mem_pixColors _ p hp)
    have h := single_colour c (CounterPix.visited (rt.drawPix oimg))
      (CounterPix.visited_ne_nil _ hlen) hall2
      (CounterPix.scan (rt.drawPix oimg)) (CounterPix.scan_visited _).1
      (CounterPix.scan_visited _).2 (rt.rangeOrder (CounterPix.scan (rt.drawPix oimg)).color)
      (hrange _)
    simp only [CounterPix.Count, hdec, h]

/-- For a non-empty image `Count` succeeds and `Colors[0]` of its result tops
the map the pixel loop built: the count stored under it is not below the
count of any entry of that map (whatever the order of `range`; the pixel count
is below `2^32`, so no `uint32` count wraps).  The map of `CounterPix` holds
the pixels its loop visits, not all pixels of the image. -/
theorem Count_first_tops_the_map {Image : Type} (rt : Runtime Image)
    (hrange : ∀ m, (rt.rangeOrder m).Perm m) (pic : Media) (oimg : Image)
    (hdec : rt.Decode pic.Bytes = .ok oimg) :
    (∀ img, rt.asYCbCr oimg = some img → 0 < img.MaxX → 0 < img.MaxY →
      img.MaxX * img.MaxY < 2 ^ 32 →
      ∃ res, CounterDefault.Count rt pic = .ok res ∧
        ∀ e ∈ (CounterDefault.scan img).color,
          e.2 ≤ (CounterDefault.scan img).color.get res.Colors.1) ∧
    (4 ≤ (rt.drawPix oimg).length → (rt.drawPix oimg).length / 4 < 2 ^ 32 →
      ∃ res, CounterPix.Count rt pic = .ok res ∧
        ∀ e ∈ (CounterPix.scan (rt.drawPix oimg)).color,
          e.2 ≤ (CounterPix.scan (rt.drawPix oimg)).color.get res.Colors.1) := by
  constructor
  · intro img himg hx hy hsize
    have hlen : img.colors.length < 2 ^ 32 := by
      rw [YCbCr.colors_length, Nat.mul_comm]; exact hsize
    have hres : CounterDefault.Count rt pic = .ok
        { URL := pic.URL,
          Colors :=
            ((selectMax (CounterDefault.scan img).seed
                (rt.rangeOrder (CounterDefault.scan img).color)).1.color,
             (selectMax (CounterDefault.scan img).seed
                (rt.rangeOrder (CounterDefault.scan img).color)).2.1.color,
             (selectMax (CounterDefault.scan img).seed
                (rt.rangeOrder (CounterDefault.scan img).color)).2.2.color) } := by
      simp only [CounterDefault.Count, hdec, himg]
    refine ⟨_, hres, ?_⟩
    exact top_most_frequent img.colors (YCbCr.colors_ne_nil img hx hy) hlen
      (CounterDefault.scan img) (CounterDefault.scan_histogram img).1
      (CounterDefault.scan_histogram img).2 _ (hrange _)
  · intro hne hsize
    have hlen : (CounterPix.visited (rt.drawPix oimg)).length < 2 ^ 32 :=
      lt_of_le_of_lt (CounterPix.visited_length _) hsize
    have hres : CounterPix.Count rt pic = .ok
        { URL := pic.URL,
          Colors :=
            ((selectMax (CounterPix.scan (rt.drawPix oimg)).seed
                (rt.rangeOrder (CounterPix.scan (rt.drawPix oimg)).color)).1.color,
             (selectMax (CounterPix.scan (rt.drawPix oimg)).seed
                (rt.rangeOrder (CounterPix.scan (rt.drawPix oimg)).color)).2.1.color,
             (selectMax (CounterPix.scan (rt.drawPix oimg)).seed
                (rt.rangeOrder (CounterPix.scan (rt.drawPix oimg)).color)).2.2.color) } := by
      simp only [CounterPix.Count, hdec]
    refine ⟨_, hres, ?_⟩
    exact top_most_frequent (CounterPix.visited (rt.drawPix oimg))
      (CounterPix.visited_ne_nil _ hne) hlen
      (CounterPix.scan (rt.drawPix oimg)) (CounterPix.scan_visited _).1
      (CounterPix.scan_visited _).2 _ (hrange _)

/-- A decoded image that is no `*image.YCbCr` (a grey JPEG) is refused by
`CounterDefault`. -/
theorem CounterDefault_refuses_other_images {Image : Type} (rt : Runtime Image) (pic : Media)
    (oimg : Image) (hdec : rt.Decode pic.Bytes = .ok oimg) (hy : rt.asYCbCr oimg = none) :
    CounterDefault.Count rt pic = .error "image could not be converted to YCbCr" := by
  simp only [CounterDefault.Count, hdec, hy]

/-- C4: `CounterDefault` does not report the colour of a one-colour image.
On a 2x2 JPEG of pure red every pixel has the colour `0xFE0000` and
`YCbCrAt(x, y).RGBA()` is `(65113, 102, 26)`; `ToRGB` keeps the low byte of
each 16-bit channel, so `CounterDefault.Count` returns `0x59661A` three times,
while `CounterPix.Count` returns the colour of the image, `0xFE0000`, three
times (whatever the order of `range`). -/
theorem CounterDefault_reports_low_bytes {Image : Type} (rt : Runtime Image)
    (hrange : ∀ m, (rt.rangeOrder m).Perm m) (pic : Media) (oimg : Image)
    (hdec : rt.Decode pic.Bytes = .ok oimg)
    (hy : rt.asYCbCr oimg = some redJPEG.toYCbCr) (hp : rt.drawPix oimg = redJPEG.toPix) :
    (∀ c ∈ redJPEG.colors, c = 0xFE0000) ∧
    (∀ x y, redJPEG.toYCbCr.RGBAAt x y = (65113, 102, 26)) ∧
    CounterPix.Count rt pic
      = .ok { URL := pic.URL, Colors := (0xFE0000, 0xFE0000, 0xFE0000) } ∧
    CounterDefault.Count rt pic
      = .ok { URL := pic.URL, Colors := (0x59661A, 0x59661A, 0x59661A) } := by
  have hsample : colorRGBA (76, 85, 255) = (65113, 102, 26) := by decide
  refine ⟨by decide, fun _ _ => hsample, ?_, ?_⟩
  · refine (Count_one_packed_colour rt hrange pic oimg hdec 0xFE0000).2 ?_ ?_
    · rw [hp]; decide
    · rw [hp]; decide
  · refine (Count_one_packed_colour rt hrange pic oimg hdec 0x59661A).1 redJPEG.toYCbCr hy
      (by decide) (by decide) ?_
    intro x y _ _
    show rgbOf (colorRGBA (76, 85, 255)) = 0x59661A
    rw [hsample]
    decide

theorem CounterDefault_reports_low_bytes_witness :
    CounterPix.Count (fixedRuntime redJPEG.toYCbCr redJPEG.toPix) somePic
      = .ok { URL := somePic.URL, Colors := (0xFE0000, 0xFE0000, 0xFE0000) } ∧
    CounterDefault.Count (fixedRuntime redJPEG.toYCbCr redJPEG.toPix) somePic
      = .ok { URL := somePic.URL, Colors := (0x59661A, 0x59661A, 0x59661A) } :=
  ⟨(CounterDefault_reports_low_bytes (fixedRuntime redJPEG.toYCbCr redJPEG.toPix)
      (fun m => List.Perm.refl m) somePic () rfl rfl rfl).2.2.1,
   (CounterDefault_reports_low_bytes (fixedRuntime redJPEG.toYCbCr redJPEG.toPix)
      (fun m => List.Perm.refl m) somePic () rfl rfl rfl).2.2.2⟩

/-- C5: `Colors[0]` of `CounterPix.Count` need not be a most frequent colour.
On a 4x4 image of 4 red pixels followed by 12 blue pixels the loop counts the
first four pixels only, its map is `{red: 4}`, and `Count` returns red three
times, whatever the order of `range`, although blue has 12 of the 16 pixels. -/
theorem CounterPix_first_not_most_frequent {Image : Type} (rt : Runtime Image)
    (hrange : ∀ m, (rt.rangeOrder m).Perm m) (pic : Media) (oimg : Image)
    (hdec : rt.Decode pic.Bytes = .ok oimg) (hp : rt.drawPix oimg = redThenBlue) :
    (pixColors redThenBlue).length = 16 ∧
    (pixColors redThenBlue).count 0xFF0000 = 4 ∧
    (pixColors redThenBlue).count 0x0000FF = 12 ∧
    (CounterPix.scan redThenBlue).color = [(0xFF0000, 4)] ∧
    CounterPix.Count rt pic
      = .ok { URL := pic.URL, Colors := (0xFF0000, 0xFF0000, 0xFF0000) } := by
  have hcol : (CounterPix.scan redThenBlue).color = [(0xFF0000, 4)] := by decide
  have hseed : (CounterPix.scan redThenBlue).seed
      = (⟨0xFF0000, 1⟩, ⟨0xFF0000, 1⟩, ⟨0xFF0000, 1⟩) := by decide
  have horder : rt.rangeOrder [(0xFF0000, 4)] = [(0xFF0000, 4)] :=
    List.perm_singleton.mp (hrange _)
  have hsel : selectMax (⟨0xFF0000, 1⟩, ⟨0xFF0000, 1⟩, ⟨0xFF0000, 1⟩) [(0xFF0000, 4)]
      = (⟨0xFF0000, 4⟩, ⟨0xFF0000, 1⟩, ⟨0xFF0000, 1⟩) := by decide
  refine ⟨by decide, by decide, by decide, hcol, ?_⟩
  simp only [CounterPix.Count, hdec, hp, hcol, hseed, horder, hsel]

theorem CounterPix_first_not_most_frequent_witness :
    CounterPix.Count (fixedRuntime threePixels redThenBlue) somePic
      = .ok { URL := somePic.URL, Colors := (0xFF0000, 0xFF0000, 0xFF0000) } :=
  (CounterPix_first_not_most_frequent (fixedRuntime threePixels redThenBlue)
    (fun m => List.Perm.refl m) somePic () rfl rfl).2.2.2.2

/-! ## The output sink -/

theorem join_snoc (l : List GoString) (s : GoString) :
    String.join (l ++ [s]) = String.join l ++ s := by
  simp [String.join, List.foldl_append]

theorem join_cons (s : GoString) (l : List GoString) :
    String.join (s :: l) = s ++ String.join l := by
  apply String.ext
  simp [String.data_join, String.data_append]

theorem csvLines_eq (out : BufferedCSV) : out.csvLines out.buf = String.join out.buf := by
  unfold BufferedCSV.csvLines
  split_ifs with h
  · rw [List.length_eq_zero] at h
    rw [h]; rfl
  · rfl

theorem utf8ByteSize_go_eq_zero (l : List Char) : String.utf8ByteSize.go l = 0 ↔ l = [] := by
  cases l with
  | nil => simp [String.utf8ByteSize.go]
  | cons c cs =>
    have := Char.utf8Size_pos c
    simp [String.utf8ByteSize.go]
    omega

theorem utf8ByteSize_eq_zero (s : GoString) : s.utf8ByteSize = 0 ↔ s = "" := by
  obtain ⟨l⟩ := s
  simp only [String.utf8ByteSize, utf8ByteSize_go_eq_zero]
  constructor
  · intro h; rw [h]
  · intro h; exact congrArg String.data h

/-- The sink after the appends of one `Save`, before the test for a flush. -/
theorem Save_buffered (grow : Nat → Nat) (out : BufferedCSV) (res : Resulter) :
    ∃ o : BufferedCSV, o.file = out.file ∧ o.isHeadWriteRequired = false ∧
      o.buf = out.buf ++ (if out.isHeadWriteRequired then [res.Header] else []) ++ [res.Result] ∧
      ∀ (fs : FS) (n : GoString), out.file = some { name := n, closed := false } →
        out.Save grow fs res none =
          if o.buf.length < o.cap then (o, fs, none)
          else ({ o with buf := [] }, fs.append n (String.join o.buf), none) := by
  by_cases hh : out.isHeadWriteRequired = true
  · refine ⟨({ out.append grow res.Header with isHeadWriteRequired := false }).append grow
      res.Result, rfl, rfl, ?_, ?_⟩
    · simp [BufferedCSV.append, hh]
    · intro fs n hf
      simp only [BufferedCSV.Save, hf, hh, if_true, File.WriteString, csvLines_eq,
        Bool.false_eq_true, if_false]
  · have hh' : out.isHeadWriteRequired = false := by simpa using hh
    refine ⟨out.append grow res.Result, rfl, hh', ?_, ?_⟩
    · simp [BufferedCSV.append, hh']
    · intro fs n hf
      simp only [BufferedCSV.Save, hf, hh', if_true, File.WriteString, csvLines_eq,
        Bool.false_eq_true, if_false]

/-- One `Save` on an open sink: no error, the file stays open, and the content
of the file followed by the buffer grows by the record, after the header when
one was pending. -/
theorem Save_open (grow : Nat → Nat) (out : BufferedCSV) (fs : FS) (res : Resulter)
    (n content : GoString) (hf : out.file = some { name := n, closed := false })
    (hfs : fs n = some content) :
    (out.Save grow fs res none).2.2 = none ∧
    (out.Save grow fs res none).1.file = some { name := n, closed := false } ∧
    (out.Save grow fs res none).1.isHeadWriteRequired = false ∧
    ∃ content', (out.Save grow fs res none).2.1 n = some content' ∧
      content' ++ String.join (out.Save grow fs res none).1.buf
        = content ++ String.join out.buf
            ++ (if out.isHeadWriteRequired then res.Header else "") ++ res.Result := by
  obtain ⟨o, o1, o2, o3, o4⟩ := Save_buffered grow out res
  rw [o4 fs n hf]
  have hjoin : String.join o.buf = String.join out.buf
      ++ (if out.isHeadWriteRequired then res.Header else "") ++ res.Result := by
    rw [o3]
    apply String.ext
    by_cases hh : out.isHeadWriteRequired = true <;>
      simp [hh, String.data_join, String.data_append]
  by_cases hlen : o.buf.length < o.cap
  · rw [if_pos hlen]
    refine ⟨rfl, o1.trans hf, o2, content, hfs, ?_⟩
    show content ++ String.join o.buf = _
    rw [hjoin]
    simp only [String.append_assoc]
  · rw [if_neg hlen]
    refine ⟨rfl, o1.trans hf, o2, content ++ String.join o.buf, ?_, ?_⟩
    · simp only [FS.append, if_true, hfs, Option.getD_some]
    · show content ++ String.join o.buf ++ String.join [] = _
      rw [hjoin]
      apply String.ext
      simp [String.data_join, String.data_append]

/-- The text a run of `Save` calls adds to file and buffer together. -/
theorem SaveAll_open (grow : Nat → Nat) (rs : List Resulter) (out : BufferedCSV) (fs : FS)
    (n content : GoString) (hf : out.file = some { name := n, closed := false })
    (hfs : fs n = some content) :
    (∀ e ∈ (BufferedCSV.SaveAll grow out fs rs).2.2, e = none) ∧
    (BufferedCSV.SaveAll grow out fs rs).1.file = some { name := n, closed := false } ∧
    ∃ content', (BufferedCSV.SaveAll grow out fs rs).2.1 n = some content' ∧
      content' ++ String.join (BufferedCSV.SaveAll grow out fs rs).1.buf
        = content ++ String.join out.buf
            ++ (if out.isHeadWriteRequired then (rs.head?.map Resulter.Header).getD "" else "")
            ++ String.join (rs.map Resulter.Result) := by
  induction rs generalizing out fs content with
  | nil =>
    refine ⟨by simp [BufferedCSV.SaveAll], hf, content, hfs, ?_⟩
    apply String.ext
    by_cases hh : out.isHeadWriteRequired = true <;>
      simp [hh, BufferedCSV.SaveAll, String.data_join, String.data_append]
  | cons r rs ih =>
    obtain ⟨s1, s2, s3, c1, s4, s5⟩ := Save_open grow out fs r n content hf hfs
    obtain ⟨i1, i2, c2, i3, i4⟩ := ih (out.Save grow fs r none).1 (out.Save grow fs r none).2.1 c1 s2 s4
    simp only [BufferedCSV.SaveAll]
    refine ⟨?_, i2, c2, i3, ?_⟩
    · intro e he
      rcases List.mem_cons.mp he with h | h
      · rw [h]; exact s1
      · exact i1 e h
    · rw [i4, s3, s5]
      apply String.ext
      by_cases hh : out.isHeadWriteRequired = true <;>
        simp [hh, String.data_join, String.data_append]


theorem Open_ok (size : Int) (fs : FS) (fname : GoString) :
    ((NewBufferedCSV size).Open fs fname none none).2.2 = none ∧
    ((NewBufferedCSV size).Open fs fname none none).1.file
      = some { name := fname, closed := false } ∧
    ((NewBufferedCSV size).Open fs fname none none).1.buf = [] ∧
    ((NewBufferedCSV size).Open fs fname none none).1.isHeadWriteRequired
      = decide ((fs fname).getD "" = "") ∧
    ((NewBufferedCSV size).Open fs fname none none).2.1 fname = some ((fs fname).getD "") := by
  refine ⟨rfl, rfl, rfl, ?_, ?_⟩
  · simp only [BufferedCSV.Open, FS.create, if_true, Option.getD_some]
    by_cases h : (fs fname).getD "" = ""
    · rw [h]; decide
    · have h2 : ¬ ((fs fname).getD "").utf8ByteSize = 0 := fun h3 =>
        h ((utf8ByteSize_eq_zero _).mp h3)
      simp [h, h2]
  · simp only [BufferedCSV.Open, FS.create, if_true]

theorem Close_open (out : BufferedCSV) (fs : FS) (n content : GoString)
    (hf : out.file = some { name := n, closed := false }) (hfs : fs n = some content) :
    (out.Close fs none none).2.2 = none ∧
    (out.Close fs none none).2.1 n = some (content ++ String.join out.buf) := by
  simp only [BufferedCSV.Close, hf, File.WriteString, File.Close, csvLines_eq,
    Bool.false_eq_true, if_false, FS.append, if_true, hfs, Option.getD_some, and_self]

/-- The destination after one life of the sink, for any records. -/
theorem sinkSession_general (grow : Nat → Nat) (size : Int) (fs : FS) (fname : GoString)
    (rs : List Resulter) :
    (sinkSession grow size fs fname rs).1 fname
      = some ((fs fname).getD ""
          ++ (if (fs fname).getD "" = "" then (rs.head?.map Resulter.Header).getD "" else "")
          ++ String.join (rs.map Resulter.Result)) ∧
    ∀ e ∈ (sinkSession grow size fs fname rs).2, e = none := by
  obtain ⟨p1, p2, p3, p4, p5⟩ := Open_ok size fs fname
  obtain ⟨s1, s2, c, s3, s4⟩ := SaveAll_open grow rs
    ((NewBufferedCSV size).Open fs fname none none).1
    ((NewBufferedCSV size).Open fs fname none none).2.1 fname _ p2 p5
  obtain ⟨c1, c2⟩ := Close_open _ _ fname c s2 s3
  constructor
  · simp only [sinkSession]
    rw [c2, s4, p3, p4]
    congr 1
    apply String.ext
    by_cases h : (fs fname).getD "" = "" <;>
      simp [h, String.data_join, String.data_append]
  · intro e he
    simp only [sinkSession, List.mem_cons, List.mem_append, List.mem_singleton,
      List.not_mem_nil, or_false] at he
    rcases he with (h | h) | h
    · rw [h]; exact p1
    · exact s1 e h
    · rw [h]; exact c1

/-- The destination after one life of the sink, for records of type `Result`. -/
theorem sinkSession_records (grow : Nat → Nat) (size : Int) (fs : FS) (fname : GoString)
    (rs : List Result) :
    (sinkSession grow size fs fname (rs.map Result.toResulter)).1 fname
      = some ((fs fname).getD ""
          ++ (if (fs fname).getD "" = "" ∧ rs ≠ []
              then "\"url\",\"color1\",\"color2\",\"color3\"\n" else "")
          ++ String.join (rs.map Result.Result)) := by
  rw [(sinkSession_general grow size fs fname (rs.map Result.toResulter)).1]
  congr 2
  · cases rs with
    | nil => simp
    | cons r rs' =>
      by_cases h : (fs fname).getD "" = "" <;> simp [h, Result.toResulter, Result.Header]
  · simp [List.map_map, Function.comp_def, Result.toResulter]

/-- C6: with no I/O error, `NewBufferedCSV(size)`, `Open`, `Save(r1)`, ...,
`Save(rn)`, `Close` leave in the destination its prior content, then the
header when the destination was empty and `n ≥ 1`, then `r1.Result()`, ...,
`rn.Result()` once each and in this order, for every capacity and every
growth of the slice; and no call returns an error. -/
theorem sinkSession_content (grow : Nat → Nat) (size : Int) (fs : FS) (fname : GoString)
    (rs : List Result) :
    (sinkSession grow size fs fname (rs.map Result.toResulter)).1 fname
      = some ((fs fname).getD ""
          ++ (if (fs fname).getD "" = "" ∧ rs ≠ []
              then "\"url\",\"color1\",\"color2\",\"color3\"\n" else "")
          ++ String.join (rs.map Result.Result)) ∧
    ∀ e ∈ (sinkSession grow size fs fname (rs.map Result.toResulter)).2, e = none :=
  ⟨sinkSession_records grow size fs fname rs,
    (sinkSession_general grow size fs fname (rs.map Result.toResulter)).2⟩

/-- C8: a `Save` after `Close` returns no error and changes neither the
destination (nor any other file) nor the sink with its buffer, whatever the
sink did before and whether or not `Close` met an I/O error. -/
theorem Save_after_Close (grow : Nat → Nat) (out : BufferedCSV) (fs : FS)
    (werr cerr werr' : Option GoString) (res : Resulter) :
    (out.Close fs werr cerr).1.file = none ∧
    (out.Close fs werr cerr).1.Save grow (out.Close fs werr cerr).2.1 res werr'
      = ((out.Close fs werr cerr).1, (out.Close fs werr cerr).2.1, none) := by
  have hnil : (out.Close fs werr cerr).1.file = none := by
    unfold BufferedCSV.Close
    cases hf : out.file with
    | none => simp [hf]
    | some f =>
      simp only
      split <;> rfl
  exact ⟨hnil, by simp only [BufferedCSV.Save, hnil]⟩


/-! ## Lines of the destination -/

theorem splitLines_line (body rest acc : List Char) (h : '\n' ∉ body) :
    splitLines acc (body ++ '\n' :: rest) = (acc ++ body) :: splitLines [] rest := by
  induction body generalizing acc with
  | nil => simp [splitLines]
  | cons c cs ih =>
    have hc : ¬ c = '\n' := fun e => h (by rw [e]; exact List.mem_cons_self _ _)
    have hcs : '\n' ∉ cs := fun e => h (List.mem_cons_of_mem _ e)
    have e : splitLines acc ((c :: cs) ++ '\n' :: rest)
        = splitLines (acc ++ [c]) (cs ++ '\n' :: rest) := by
      rw [List.cons_append]
      simp only [splitLines, hc, if_false]
    rw [e, ih _ hcs]
    simp

theorem splitLines_lines (bodies : List (List Char)) (h : ∀ b ∈ bodies, '\n' ∉ b) :
    splitLines [] ((bodies.map (fun b => b ++ ['\n'])).flatten) = bodies := by
  induction bodies with
  | nil => simp [splitLines]
  | cons b bs ih =>
    simp only [List.map_cons, List.flatten_cons, List.append_assoc, List.singleton_append]
    rw [splitLines_line b _ [] (h b (List.mem_cons_self _ _)),
      ih (fun x hx => h x (List.mem_cons_of_mem _ hx))]
    simp

theorem Result_data (r : Result) : (Result.Result r).data = Result.line r ++ ['\n'] := by
  simp only [Result.Result, Result.line, String.data_append]
  simp

theorem lowerHex_getD_ne (d : Nat) : lowerHex.getD d '?' ≠ '\n' := by
  by_cases h : d < 16
  · interval_cases d <;> decide
  · have : lowerHex.length ≤ d := by
      have : lowerHex.length = 16 := rfl
      omega
    rw [List.getD_eq_default _ _ this]
    decide


theorem RGB_String_data (c : Nat) : (RGB.String c).data = '#' :: hex6 (c % 2 ^ 24) := by
  rw [RGB_String_eq]; rfl

theorem hex6_no_newline (v : Nat) : '\n' ∉ hex6 v := by
  intro h
  simp only [hex6, List.mem_cons, List.mem_singleton, List.not_mem_nil, or_false] at h
  rcases h with h | h | h | h | h | h <;> exact lowerHex_getD_ne _ h.symm

theorem Result_line_no_newline (r : Result) (h : '\n' ∉ r.URL.data) : '\n' ∉ Result.line r := by
  intro hm
  simp only [Result.line, RGB_String_data, List.mem_append, List.mem_cons] at hm
  have h1 := hex6_no_newline (r.Colors.1 % 2 ^ 24)
  have h2 := hex6_no_newline (r.Colors.2.1 % 2 ^ 24)
  have h3 := hex6_no_newline (r.Colors.2.2 % 2 ^ 24)
  have q : ¬ '\n' ∈ "\",\"".data := by decide
  have q1 : ¬ ('\n' = '"') := by decide
  have q2 : ¬ ('\n' = '#') := by decide
  simp only [List.not_mem_nil, or_false] at hm
  tauto

theorem Result_line_ne_header (r : Result) :
    Result.line r ≠ "\"url\",\"color1\",\"color2\",\"color3\"".data := by
  intro h
  have e1 : Result.line r = ('"' :: r.URL.data ++ "\",\"".data ++ (RGB.String r.Colors.1).data
      ++ "\",\"".data ++ (RGB.String r.Colors.2.1).data ++ "\",\"".data)
      ++ ('#' :: hex6 (r.Colors.2.2 % 2 ^ 24) ++ ['"']) := by
    simp only [Result.line, RGB_String_data, List.append_assoc]
  have e2 : "\"url\",\"color1\",\"color2\",\"color3\"".data
      = "\"url\",\"color1\",\"color2\",".data ++ "\"color3\"".data := by decide
  rw [e1, e2] at h
  have h2 := List.append_inj_right' h (by simp [hex6])
  have h3 := congrArg List.head? h2
  simp at h3

/-- The lines of the text a destination received in one life of the sink. -/
theorem sinkSession_received (grow : Nat → Nat) (size : Int) (fs : FS) (fname : GoString)
    (rs : List Result) :
    (received ((fs fname).getD "")
      (((sinkSession grow size fs fname (rs.map Result.toResulter)).1 fname).getD "")).data
      = (((if (fs fname).getD "" = "" ∧ rs ≠ []
            then ["\"url\",\"color1\",\"color2\",\"color3\"".data] else [])
          ++ rs.map Result.line).map (fun b => b ++ ['\n'])).flatten := by
  rw [sinkSession_records grow size fs fname rs]
  have hmap : rs.map (String.data ∘ Result.Result)
      = rs.map ((fun b => b ++ ['\n']) ∘ Result.line) :=
    List.map_congr_left (fun r _ => Result_data r)
  simp only [received, Option.getD_some, String.data_append, List.append_assoc,
    List.drop_left, String.data_join, List.map_map, List.map_append, List.flatten_append]
  rw [hmap]
  by_cases h : (fs fname).getD "" = "" ∧ rs ≠ []
  · rw [if_pos h, if_pos h]
    rfl
  · rw [if_neg h, if_neg h]
    rfl

/-- C7 (amended): after one life of the sink whose URLs hold no newline, the
text the destination received holds exactly one header line when the
destination was empty before `Open` and at least one `Save` followed, and no
header line otherwise (a destination that was not empty, or no `Save`). -/
theorem header_lines_received (grow : Nat → Nat) (size : Int) (fs : FS) (fname : GoString)
    (rs : List Result) (hurl : ∀ r ∈ rs, '\n' ∉ r.URL.data) :
    headerLines (received ((fs fname).getD "")
      (((sinkSession grow size fs fname (rs.map Result.toResulter)).1 fname).getD ""))
      = if (fs fname).getD "" = "" ∧ rs ≠ [] then 1 else 0 := by
  unfold headerLines
  rw [sinkSession_received, splitLines_lines]
  · have hrec : (rs.map Result.line).count "\"url\",\"color1\",\"color2\",\"color3\"".data = 0 := by
      rw [List.count_eq_zero]
      intro hm
      obtain ⟨r, _, hr⟩ := List.mem_map.mp hm
      exact Result_line_ne_header r hr
    rw [List.count_append, hrec]
    by_cases h : (fs fname).getD "" = "" ∧ rs ≠ []
    · simp only [h, and_self, ne_eq, not_false_eq_true, if_true]; rfl
    · simp only [h, if_false]; rfl
  · intro b hb
    rcases List.mem_append.mp hb with hb | hb
    · by_cases h : (fs fname).getD "" = "" ∧ rs ≠ []
      · simp only [h, and_self, ne_eq, not_false_eq_true, if_true, List.mem_singleton] at hb
        rw [hb]; decide
      · simp only [h, if_false, List.not_mem_nil] at hb
    · obtain ⟨r, hr, e⟩ := List.mem_map.mp hb
      rw [← e]
      exact Result_line_no_newline r (hurl r hr)

theorem header_lines_received_witness :
    headerLines (received ((noFiles "out.csv").getD "")
      (((sinkSession (fun n => 2 * n) 3 noFiles "out.csv"
        ([{ URL := "http://a/1.jpg", Colors := (1, 2, 3) },
          { URL := "http://a/2.jpg", Colors := (4, 5, 6) }].map Result.toResulter)).1
        "out.csv").getD ""))
      = if (noFiles "out.csv").getD "" = "" ∧
          ([{ URL := "http://a/1.jpg", Colors := (1, 2, 3) },
            { URL := "http://a/2.jpg", Colors := (4, 5, 6) }] : List Result) ≠ []
        then 1 else 0 :=
  header_lines_received (fun n => 2 * n) 3 noFiles "out.csv"
    [{ URL := "http://a/1.jpg", Colors := (1, 2, 3) },
     { URL := "http://a/2.jpg", Colors := (4, 5, 6) }]
    (by
      intro r hr
      simp only [List.mem_cons, List.mem_singleton, List.not_mem_nil, or_false] at hr
      rcases hr with h | h <;> rw [h] <;> decide)

/-- C7 as stated fails: a destination that is empty before `Open` and is
closed without a `Save` in between receives no header line, not one. -/
theorem header_lines_no_Save :
    ¬ (∀ (rs : List Result),
      headerLines (received ((noFiles "out.csv").getD "")
        (((sinkSession (fun n => 2 * n) 3 noFiles "out.csv"
          (rs.map Result.toResulter)).1 "out.csv").getD "")) = 1) := by
  intro h
  have := h []
  revert this
  decide


/-! ## The counts of `CounterDefault` sum to the number of pixels -/

theorem Histogram.sum_incr (m : Histogram) (c : RGB) (h : ∀ e ∈ m, e.2 + 1 < 2 ^ 32) :
    ((m.incr c).map Prod.snd).sum = (m.map Prod.snd).sum + 1 := by
  induction m with
  | nil => simp [Histogram.incr]
  | cons e rest ih =>
    obtain ⟨k, n⟩ := e
    have hn : n + 1 < 2 ^ 32 := h (k, n) (List.mem_cons_self _ _)
    have hrest := ih (fun x hx => h x (List.mem_cons_of_mem _ hx))
    by_cases hk : k = c
    · simp only [Histogram.incr, hk, if_true, List.map_cons, List.sum_cons,
        Nat.mod_eq_of_lt hn]
      omega
    · simp only [Histogram.incr, hk, if_false, List.map_cons, List.sum_cons, hrest]
      omega

theorem foldl_incr_sum (cs : List RGB) (h : cs.length < 2 ^ 32) :
    (((cs.foldl Histogram.incr []).map Prod.snd).sum) = cs.length := by
  induction cs using List.reverseRecOn with
  | nil => simp
  | append_singleton cs c ih =>
    have hlen : cs.length + 1 < 2 ^ 32 := by simpa using h
    rw [foldl_incr_snoc, Histogram.sum_incr, ih (by omega)]
    · simp
    · intro e he
      have h1 := Histogram.get_of_mem _ (foldl_incr_nodup cs) e.1 e.2 he
      rw [foldl_incr_get] at h1
      have h2 : cs.count e.1 % 2 ^ 32 ≤ cs.count e.1 := Nat.mod_le _ _
      have h3 : cs.count e.1 ≤ cs.length := List.count_le_length _ _
      omega

/-- The counts of the histogram of `CounterDefault` sum to width x height. -/
theorem CounterDefault.histogram_sum (img : YCbCr) (hsize : img.MaxX * img.MaxY < 2 ^ 32) :
    (((CounterDefault.scan img).color.map Prod.snd).sum) = img.MaxX * img.MaxY := by
  rw [(CounterDefault.scan_histogram img).1, foldl_incr_sum, YCbCr.colors_length, Nat.mul_comm]
  rw [YCbCr.colors_length, Nat.mul_comm]
  exact hsize

/-! ## The downloader -/

/-- C3: an attempt made after a `ErrNoFreeConns` retry is returned as a
downloaded image without the checks of the first attempt: a 404 response and
a 200 response with an empty body both come back with a `nil` error, while the
same responses to the first attempt yield `http code 404` and
`ErrMediaIsEmpty`. -/
theorem Download_retry_skips_checks (url : GoString) :
    MediaDownloader.Download url .ErrNoFreeConns [.tick (.ok 404 [60, 104, 49, 62])]
      = some (.ok { url := url, StatusCode := 404, Body := [60, 104, 49, 62] }) ∧
    MediaDownloader.Download url .ErrNoFreeConns [.tick (.ok 200 [])]
      = some (.ok { url := url, StatusCode := 200, Body := [] }) ∧
    MediaDownloader.Download url (.ok 404 [60, 104, 49, 62]) []
      = some (.error (.httpCode 404)) ∧
    MediaDownloader.Download url (.ok 200 []) [] = some (.error .ErrMediaIsEmpty) := by
  refine ⟨rfl, rfl, ?_, ?_⟩ <;> simp [MediaDownloader.Download]

/-! ## The URL source -/

theorem runner_Background (TrimSpace : GoString → GoString) (tokens : List GoString) (i : Nat) :
    (PlainTextFileInput.runner TrimSpace Background i tokens).sent
      = (tokens.map TrimSpace).filter (fun s => decide (8 ≤ s.utf8ByteSize)) ∧
    (PlainTextFileInput.runner TrimSpace Background i tokens).eof = 1 := by
  induction tokens generalizing i with
  | nil => exact ⟨rfl, rfl⟩
  | cons t ts ih =>
    obtain ⟨ih1, ih2⟩ := ih (i + 1)
    by_cases h : (TrimSpace t).utf8ByteSize < 8
    · have h2 : ¬ 8 ≤ (TrimSpace t).utf8ByteSize := by omega
      simp [PlainTextFileInput.runner, Background, h, h2, ih1, ih2]
    · have h2 : 8 ≤ (TrimSpace t).utf8ByteSize := by omega
      simp [PlainTextFileInput.runner, Background, h, h2, ih1, ih2]

/-- C9 (amended): with no cancellation the values delivered by `Next()` are
exactly the trimmed input lines whose length in bytes (Go `len`) is at least
8, in file order, and completion is signalled once. -/
theorem Next_delivers_long_lines (TrimSpace : GoString → GoString) (tokens : List GoString) :
    PlainTextFileInput.Next TrimSpace Background tokens
      = (tokens.map TrimSpace).filter (fun s => decide (8 ≤ s.utf8ByteSize)) ∧
    (PlainTextFileInput.runner TrimSpace Background 0 tokens).eof = 1 :=
  runner_Background TrimSpace tokens 0

/-- C9 as stated fails: the line `éééé` has 4 characters and 8 bytes; it is
delivered, although it is shorter than 8 characters. -/
theorem Next_delivers_short_line :
    PlainTextFileInput.Next TrimSpace Background ["éééé"] = ["éééé"] ∧
    (TrimSpace "éééé").length = 4 ∧
    PlainTextFileInput.Next TrimSpace Background ["éééé"]
      ≠ (["éééé"].map TrimSpace).filter (fun s => decide (8 ≤ s.length)) := by
  decide

/-! ## Packing of colours -/

theorem ToRGB_eq (r g b : Nat) :
    ToRGB r g b = r % 256 * 65536 + g % 256 * 256 + b % 256 := by
  have hr : r &&& 0x00FF = r % 256 := Nat.and_pow_two_sub_one_eq_mod r 8
  have hg : g &&& 0x00FF = g % 256 := Nat.and_pow_two_sub_one_eq_mod g 8
  have hb : b &&& 0x00FF = b % 256 := Nat.and_pow_two_sub_one_eq_mod b 8
  have lr : r % 256 < 256 := Nat.mod_lt _ (by norm_num)
  have lg : g % 256 < 256 := Nat.mod_lt _ (by norm_num)
  have lb : b % 256 < 2 ^ 8 := Nat.mod_lt _ (by norm_num)
  have lg2 : 2 ^ 8 * (g % 256) < 2 ^ 16 := by omega
  have h1 := Nat.mul_add_lt_is_or lg2 (r % 256)
  have h2 := Nat.mul_add_lt_is_or lb (2 ^ 8 * (r % 256) + g % 256)
  have s1 : (r % 256) <<< 16 = 2 ^ 16 * (r % 256) := by rw [Nat.shiftLeft_eq, Nat.mul_comm]
  have s2 : (g % 256) <<< 8 = 2 ^ 8 * (g % 256) := by rw [Nat.shiftLeft_eq, Nat.mul_comm]
  have e3 : 2 ^ 16 * (r % 256) + 2 ^ 8 * (g % 256) = 2 ^ 8 * (2 ^ 8 * (r % 256) + g % 256) := by
    ring
  calc ToRGB r g b
      = (2 ^ 16 * (r % 256) ||| 2 ^ 8 * (g % 256)) ||| b % 256 := by
        unfold ToRGB; rw [hr, hg, hb, s1, s2]
    _ = (2 ^ 16 * (r % 256) + 2 ^ 8 * (g % 256)) ||| b % 256 := by rw [← h1]
    _ = 2 ^ 8 * (2 ^ 8 * (r % 256) + g % 256) ||| b % 256 := by rw [e3]
    _ = 2 ^ 8 * (2 ^ 8 * (r % 256) + g % 256) + b % 256 := h2.symm
    _ = r % 256 * 65536 + g % 256 * 256 + b % 256 := by ring

/-- C11: `ToRGB(r, g, b)` has the layout `0x00RRGGBB`: it is below `2^24` (the
top 8 bits of the `uint32` are zero), and `(v>>16)&0xFF`, `(v>>8)&0xFF`,
`v&0xFF` give back `r&0xFF`, `g&0xFF`, `b&0xFF`; `ToRGB(0xFF, 0xAA, 0xBB)` is
`0xFFAABB`. -/
theorem ToRGB_layout (r g b : Nat) :
    ToRGB r g b < 2 ^ 24 ∧
    ToRGB r g b = (r &&& 0xFF) * 2 ^ 16 + (g &&& 0xFF) * 2 ^ 8 + (b &&& 0xFF) ∧
    (ToRGB r g b >>> 16) &&& 0xFF = r &&& 0xFF ∧
    (ToRGB r g b >>> 8) &&& 0xFF = g &&& 0xFF ∧
    ToRGB r g b &&& 0xFF = b &&& 0xFF ∧
    ToRGB 0xFF 0xAA 0xBB = 0xFFAABB := by
  have m1 : ∀ x : Nat, x &&& 0xFF = x % 256 := fun x => Nat.and_pow_two_sub_one_eq_mod x 8
  have lr : r % 256 < 256 := Nat.mod_lt _ (by norm_num)
  have lg : g % 256 < 256 := Nat.mod_lt _ (by norm_num)
  have lb : b % 256 < 256 := Nat.mod_lt _ (by norm_num)
  have key : ∀ v : Nat, v = r % 256 * 65536 + g % 256 * 256 + b % 256 →
      v < 2 ^ 24 ∧ v = r % 256 * 2 ^ 16 + g % 256 * 2 ^ 8 + b % 256 ∧
      v / 2 ^ 16 % 256 = r % 256 ∧ v / 2 ^ 8 % 256 = g % 256 ∧ v % 256 = b % 256 := by
    intro v hv
    refine ⟨by omega, by omega, by omega, by omega, by omega⟩
  obtain ⟨k1, k2, k3, k4, k5⟩ := key (ToRGB r g b) (ToRGB_eq r g b)
  rw [m1 (ToRGB r g b >>> 16), m1 (ToRGB r g b >>> 8), m1 (ToRGB r g b), m1 r, m1 g, m1 b,
    Nat.shiftRight_eq_div_pow, Nat.shiftRight_eq_div_pow]
  exact ⟨k1, k2, k3, k4, k5, by decide⟩

/-! ## Order of iteration -/

theorem countStep_comm (t : Nat × Nat × Nat) (x y : Nat) :
    countStep (countStep t x) y = countStep (countStep t y) x := by
  obtain ⟨a, b, c⟩ := t
  simp only [countStep]
  refine Prod.ext ?_ (Prod.ext ?_ ?_) <;> simp only <;> omega

/-- The counts of the slots, first slot first. -/
theorem selectStep_counts (s : maxt × maxt × maxt) (e : RGB × Nat) (h : sortedSlots s) :
    ((selectStep s e).1.count, (selectStep s e).2.1.count, (selectStep s e).2.2.count)
      = countStep (s.1.count, s.2.1.count, s.2.2.count) e.2 := by
  obtain ⟨h1, h2⟩ := h
  simp only [selectStep, countStep]
  split_ifs <;> refine Prod.ext ?_ (Prod.ext ?_ ?_) <;> simp only <;> omega

theorem selectMax_counts (order : List (RGB × Nat)) (seed : maxt × maxt × maxt)
    (h : sortedSlots seed) :
    ((selectMax seed order).1.count, (selectMax seed order).2.1.count,
      (selectMax seed order).2.2.count)
      = (order.map Prod.snd).foldl countStep (seed.1.count, seed.2.1.count, seed.2.2.count) := by
  induction order generalizing seed with
  | nil => rfl
  | cons e rest ih =>
    have hfold : selectMax seed (e :: rest) = selectMax (selectStep seed e) rest := rfl
    rw [hfold, ih _ (selectStep_sorted seed e h), selectStep_counts seed e h]
    rfl

theorem selectMax_take_sorted (order : List (RGB × Nat)) (seed : maxt × maxt × maxt)
    (h : sortedSlots seed) (n : Nat) : sortedSlots (selectMax seed (order.take n)) :=
  (selectMax_top (order.take n) seed h).1

/-- C15: from the seed slots that `Count` builds, two orderings of the same
(colour, count) pairs end the selection loop with the same multiset of three
slot counts, and after every step of either ordering the slots are in
non-increasing count order. -/
theorem selectMax_order_invariant (st : Scan) (order₁ order₂ : List (RGB × Nat))
    (hperm : order₁.Perm order₂) :
    slotCounts (selectMax st.seed order₁) = slotCounts (selectMax st.seed order₂) ∧
    (∀ n, sortedSlots (selectMax st.seed (order₁.take n))) ∧
    (∀ n, sortedSlots (selectMax st.seed (order₂.take n))) := by
  have hsorted : sortedSlots st.seed := ⟨le_refl _, le_refl _⟩
  refine ⟨?_, fun n => selectMax_take_sorted order₁ st.seed hsorted n,
    fun n => selectMax_take_sorted order₂ st.seed hsorted n⟩
  have h1 := selectMax_counts order₁ st.seed hsorted
  have h2 := selectMax_counts order₂ st.seed hsorted
  have hp : (order₁.map Prod.snd).Perm (order₂.map Prod.snd) := hperm.map _
  have hf := List.Perm.foldl_eq' hp (fun x _ y _ z => countStep_comm z x y)
    (st.seed.1.count, st.seed.2.1.count, st.seed.2.2.count)
  rw [← h1, ← h2] at hf
  have e1 := congrArg Prod.fst hf
  have e2 := congrArg (fun t => t.2.1) hf
  have e3 := congrArg (fun t => t.2.2) hf
  simp only at e1 e2 e3
  simp only [slotCounts, e1, e2, e3]

theorem selectMax_order_invariant_witness :
    slotCounts (selectMax (CounterDefault.scan threePixels).seed
        [(0xFF0000, 5), (0x00FF00, 2), (0x0000FF, 7), (0x101010, 2)])
      = slotCounts (selectMax (CounterDefault.scan threePixels).seed
        [(0x101010, 2), (0x0000FF, 7), (0x00FF00, 2), (0xFF0000, 5)]) :=
  (selectMax_order_invariant (CounterDefault.scan threePixels)
    [(0xFF0000, 5), (0x00FF00, 2), (0x0000FF, 7), (0x101010, 2)]
    [(0x101010, 2), (0x0000FF, 7), (0x00FF00, 2), (0xFF0000, 5)] (by decide)).1

/-! ## The workers of the processor -/

theorem runner_trace (Count : Media → Except GoString Resulter) (events : List Recv)
    (st : Stats) :
    (ImageProcessor.runner Count st events).1 = (pulled events).flatMap (callsFor Count) := by
  induction events generalizing st with
  | nil => rfl
  | cons e rest ih =>
    cases e with
    | ctxDone => rfl
    | closed => rfl
    | img m =>
      simp only [ImageProcessor.runner, pulled, List.flatMap_cons, callsFor]
      cases h : Count m with
      | error err => simp only [ih, List.cons_append, List.nil_append]
      | ok res => simp only [ih, List.cons_append, List.nil_append]

theorem savedOf_flatMap (Count : Media → Except GoString Resulter) (imgs : List Media) :
    savedOf (imgs.flatMap (callsFor Count))
      = imgs.filterMap (fun m => match Count m with | .ok res => some res | .error _ => none) := by
  induction imgs with
  | nil => rfl
  | cons m rest ih =>
    simp only [List.flatMap_cons, callsFor, List.filterMap_cons]
    cases h : Count m with
    | error err => simp [savedOf, ih]
    | ok res => simp [savedOf, ih]

theorem resetOf_flatMap (Count : Media → Except GoString Resulter) (imgs : List Media) :
    resetOf (imgs.flatMap (callsFor Count)) = imgs := by
  induction imgs with
  | nil => rfl
  | cons m rest ih =>
    simp only [List.flatMap_cons, callsFor]
    cases h : Count m with
    | error err => simp [resetOf, ih]
    | ok res => simp [resetOf, ih]

theorem pulled_stream (imgs : List Media) (rest : List Recv) :
    pulled (imgs.map Recv.img ++ Recv.closed :: rest) = imgs ∧
    pulled (imgs.map Recv.img ++ Recv.ctxDone :: rest) = imgs := by
  induction imgs with
  | nil => exact ⟨rfl, rfl⟩
  | cons m ms ih =>
    obtain ⟨i1, i2⟩ := ih
    exact ⟨congrArg (List.cons m) i1, congrArg (List.cons m) i2⟩

/-- C12: the calls of a worker are, for every image it takes from the stream
and in stream order, `Count`, then `Reset`, then `Save` of the result when
`Count` returned no error and nothing when it failed.  So the records handed
to `Save` are exactly the `Count` results of the images that counted without
error, in stream order, and every image is `Reset` exactly once, after its
`Count`.  For a stream of images `imgs` followed by the close of the channel
the images taken are `imgs`. -/
theorem runner_saves_counted_images (Count : Media → Except GoString Resulter)
    (st : Stats) (imgs : List Media) (events : List Recv) :
    (ImageProcessor.runner Count st events).1 = (pulled events).flatMap (callsFor Count) ∧
    savedOf (ImageProcessor.runner Count st events).1
      = (pulled events).filterMap
          (fun m => match Count m with | .ok res => some res | .error _ => none) ∧
    resetOf (ImageProcessor.runner Count st events).1 = pulled events ∧
    (ImageProcessor.runner Count st (imgs.map Recv.img ++ [Recv.closed])).1
      = imgs.flatMap (callsFor Count) ∧
    savedOf (ImageProcessor.runner Count st (imgs.map Recv.img ++ [Recv.closed])).1
      = imgs.filterMap (fun m => match Count m with | .ok res => some res | .error _ => none) ∧
    resetOf (ImageProcessor.runner Count st (imgs.map Recv.img ++ [Recv.closed])).1 = imgs := by
  have h1 := runner_trace Count events st
  have h2 := runner_trace Count (imgs.map Recv.img ++ [Recv.closed]) st
  rw [(pulled_stream imgs []).1] at h2
  rw [h1, h2]
  exact ⟨rfl, savedOf_flatMap Count _, resetOf_flatMap Count _, rfl,
    savedOf_flatMap Count _, resetOf_flatMap Count _⟩

/-! ## The constructor of the downloader -/

/-- C13: `NewMediaDownloader` sets the read timeout to `DefaultReadTimeout`
(8 s) but the per-host connection cap to 1, not to `DefaultMaxConnsPerHost`
(32); the cap is 32 only after `SetMaxConnsPerHost(32)`. -/
theorem NewMediaDownloader_MaxConnsPerHost :
    NewMediaDownloader.client.MaxConnsPerHost = 1 ∧
    DefaultMaxConnsPerHost = 32 ∧
    NewMediaDownloader.client.MaxConnsPerHost ≠ DefaultMaxConnsPerHost ∧
    NewMediaDownloader.client.ReadTimeout = DefaultReadTimeout ∧
    DefaultReadTimeout = 8 * 1000000000 ∧
    (NewMediaDownloader.SetMaxConnsPerHost 32).client.MaxConnsPerHost = 32 ∧
    (NewMediaDownloader.SetReadTimeout (10 * Second)).client.ReadTimeout = 10 * Second := by
  decide

/-! ## Cancellation of the URL source -/

/-- Completion is signalled exactly once, whatever the context does. -/
theorem runner_eof_once (TrimSpace : GoString → GoString) (ctx : Nat → CtxView)
    (tokens : List GoString) (i : Nat) :
    (PlainTextFileInput.runner TrimSpace ctx i tokens).eof = 1 := by
  induction tokens generalizing i with
  | nil => rfl
  | cons t ts ih =>
    simp only [PlainTextFileInput.runner]
    split_ifs <;> first | rfl | exact ih (i + 1)

/-- Once the outer `select` finds the context done in every iteration after
`k`, no line read after iteration `k` is delivered. -/
theorem runner_stops (TrimSpace : GoString → GoString) (ctx : Nat → CtxView) (k : Nat)
    (hdone : ∀ j, k < j → (ctx j).doneAtLoop = true) (tokens : List GoString) (i : Nat)
    (hi : i ≤ k + 1) :
    (PlainTextFileInput.runner TrimSpace ctx i tokens).sent
      = (PlainTextFileInput.runner TrimSpace ctx i (tokens.take (k + 1 - i))).sent := by
  induction tokens generalizing i with
  | nil => simp
  | cons t ts ih =>
    by_cases hik : i = k + 1
    · have hd := hdone i (by omega)
      subst hik
      simp [PlainTextFileInput.runner, hd]
    · obtain ⟨d, hd⟩ : ∃ d, k + 1 - i = d + 1 := ⟨k - i, by omega⟩
      have hd2 : k + 1 - (i + 1) = d := by omega
      have ih2 := ih (i + 1) (by omega)
      rw [hd2] at ih2
      rw [hd, List.take_succ_cons]
      simp only [PlainTextFileInput.runner]
      split_ifs
      · rfl
      · exact ih2
      · rfl
      · simp only [ih2]

/-- C14: a URL can be delivered after the cancellation.  The reader has
received the first of three lines and cancels while `runner` is between its
outer and its inner `select` of the second iteration; with a reader waiting,
both cases of the inner `select` can proceed, and when the runtime picks the
send the reader receives a second URL (two in total, not one).  When it picks
`ctx.Done()` the reader receives no further URL.  In both runs completion is
signalled once and the third line is never delivered. -/
theorem Next_after_cancel_delivers :
    PlainTextFileInput.Next TrimSpace (cancelledDuring 1 true) threeLines
      = ["http://host/1.jpeg", "http://host/2.jpeg"] ∧
    PlainTextFileInput.Next TrimSpace (cancelledDuring 1 false) threeLines
      = ["http://host/1.jpeg"] ∧
    (PlainTextFileInput.runner TrimSpace (cancelledDuring 1 true) 0 threeLines).eof = 1 ∧
    (PlainTextFileInput.runner TrimSpace (cancelledDuring 1 false) 0 threeLines).eof = 1 := by
  decide

/-! ## The capacity of the buffer -/

/-- One `Save` without write error on a sink that is ready: the buffer never
holds more than `C` lines, it is written and emptied exactly when it holds `C`
lines, and the capacity stays `C`. -/
theorem Save_ready (grow : Nat → Nat) (out : BufferedCSV) (fs : FS) (res : Resulter)
    (n : GoString) (C : Nat) (h : out.ready n C) :
    (out.pending res).length ≤ C ∧
    out.Save grow fs res none =
      (if (out.pending res).length < C then
        ({ out with buf := out.pending res, isHeadWriteRequired := false }, fs, none)
      else
        ({ out with buf := [], isHeadWriteRequired := false },
          fs.append n (String.join (out.pending res)), none)) := by
  obtain ⟨hf, hcap, hC, hlen, hhead⟩ := h
  obtain ⟨buf, cap, file, head⟩ := out
  simp only at hf hcap hlen hhead
  subst hf hcap
  cases head with
  | true =>
    have hb : buf = [] := hhead rfl
    subst hb
    have c1 : 0 < cap := by omega
    have c2 : 1 < cap := by omega
    refine ⟨by simp [BufferedCSV.pending]; omega, ?_⟩
    simp [BufferedCSV.pending, BufferedCSV.Save, BufferedCSV.append, File.WriteString,
      BufferedCSV.csvLines, c1, c2]
  | false =>
    refine ⟨by simp [BufferedCSV.pending]; omega, ?_⟩
    simp [BufferedCSV.pending, BufferedCSV.Save, BufferedCSV.append, File.WriteString,
      BufferedCSV.csvLines, hlen]

theorem Save_ready_inv (grow : Nat → Nat) (out : BufferedCSV) (fs : FS) (res : Resulter)
    (n : GoString) (C : Nat) (h : out.ready n C) :
    (out.Save grow fs res none).1.ready n C := by
  obtain ⟨s1, s2⟩ := Save_ready grow out fs res n C h
  obtain ⟨hf, hcap, hC, hlen, hhead⟩ := h
  rw [s2]
  split_ifs with hl
  · exact ⟨hf, hcap, hC, hl, by simp⟩
  · exact ⟨hf, hcap, hC, by simp; omega, by simp⟩

theorem SaveAll_ready (grow : Nat → Nat) (rs : List Resulter) (out : BufferedCSV) (fs : FS)
    (n : GoString) (C : Nat) (h : out.ready n C) :
    (BufferedCSV.SaveAll grow out fs rs).1.ready n C := by
  induction rs generalizing out fs with
  | nil => exact h
  | cons r rs ih => exact ih _ _ (Save_ready_inv grow out fs r n C h)

theorem NewBufferedCSV_cap (size : Int) :
    (NewBufferedCSV size).cap = (if size < 2 then 10 else size.toNat) ∧
    2 ≤ (NewBufferedCSV size).cap := by
  unfold NewBufferedCSV DefaultBufferLen
  by_cases h : size < 2
  · simp [h]
  · simp only [h, if_false]
    exact ⟨trivial, by omega⟩

theorem sinkAfter_ready (grow : Nat → Nat) (size : Int) (fs : FS) (fname : GoString)
    (rs : List Resulter) :
    (sinkAfter grow size fs fname rs).1.ready fname (NewBufferedCSV size).cap := by
  unfold sinkAfter
  apply SaveAll_ready
  obtain ⟨_, p2, p3, _, _⟩ := Open_ok size fs fname
  refine ⟨p2, rfl, (NewBufferedCSV_cap size).2, ?_, fun _ => p3⟩
  rw [p3]
  have := (NewBufferedCSV_cap size).2
  simp only [List.length_nil]
  omega

/-- C16 (amended): with no I/O error, after `NewBufferedCSV(size)`, `Open` and
any sequence of `Save` calls, the capacity is still the configured one (`size`,
or 10 when `size < 2`) and the buffer holds fewer lines than it; in a further
`Save` the buffer, after its appends, holds at most as many lines as the
capacity, and the file is written, and the buffer emptied, exactly when it
holds as many. -/
theorem buffer_within_capacity (grow : Nat → Nat) (size : Int) (fs : FS) (fname : GoString)
    (rs : List Resulter) (r : Resulter) :
    (NewBufferedCSV size).cap = (if size < 2 then 10 else size.toNat) ∧
    (sinkAfter grow size fs fname rs).1.cap = (NewBufferedCSV size).cap ∧
    (sinkAfter grow size fs fname rs).1.buf.length < (NewBufferedCSV size).cap ∧
    ((sinkAfter grow size fs fname rs).1.pending r).length ≤ (NewBufferedCSV size).cap ∧
    (sinkAfter grow size fs fname rs).1.Save grow (sinkAfter grow size fs fname rs).2 r none =
      (if ((sinkAfter grow size fs fname rs).1.pending r).length < (NewBufferedCSV size).cap then
        ({ (sinkAfter grow size fs fname rs).1 with
            buf := (sinkAfter grow size fs fname rs).1.pending r,
            isHeadWriteRequired := false },
          (sinkAfter grow size fs fname rs).2, none)
      else
        ({ (sinkAfter grow size fs fname rs).1 with buf := [], isHeadWriteRequired := false },
          (sinkAfter grow size fs fname rs).2.append fname
            (String.join ((sinkAfter grow size fs fname rs).1.pending r)), none)) := by
  have hr := sinkAfter_ready grow size fs fname rs
  obtain ⟨s1, s2⟩ := Save_ready grow _ (sinkAfter grow size fs fname rs).2 r fname _ hr
  exact ⟨(NewBufferedCSV_cap size).1, hr.2.1, hr.2.2.2.1, s1, s2⟩

/-- C16 as stated fails: after a `Save` whose write fails the buffer is left
full, and the next `Save` appends to it: the buffer of capacity 2 then holds 3
lines and its capacity has changed (to 4 when the runtime doubles it). -/
theorem buffer_exceeds_capacity_after_failed_write :
    (NewBufferedCSV 2).cap = 2 ∧
    ((sinkAfter (fun c => 2 * c) 2 noFiles "out.csv" []).1.Save (fun c => 2 * c)
        (sinkAfter (fun c => 2 * c) 2 noFiles "out.csv" []).2 recordA
        (some "no space left on device")).2.2 = some "no space left on device" ∧
    ((((sinkAfter (fun c => 2 * c) 2 noFiles "out.csv" []).1.Save (fun c => 2 * c)
        (sinkAfter (fun c => 2 * c) 2 noFiles "out.csv" []).2 recordA
        (some "no space left on device")).1.Save (fun c => 2 * c)
        (sinkAfter (fun c => 2 * c) 2 noFiles "out.csv" []).2 recordB none).1.buf.length = 3) ∧
    ((((sinkAfter (fun c => 2 * c) 2 noFiles "out.csv" []).1.Save (fun c => 2 * c)
        (sinkAfter (fun c => 2 * c) 2 noFiles "out.csv" []).2 recordA
        (some "no space left on device")).1.Save (fun c => 2 * c)
        (sinkAfter (fun c => 2 * c) 2 noFiles "out.csv" []).2 recordB none).1.cap = 4) := by
  decide

end jpegcc
